import Mathlib

/-!
Verification of the clustering & consensus-detection engine of the
baselhack25_b1 repository, as described by its specification.

The Python source is shallowly embedded: pure numeric kernels become Lean
functions over `ℚ` (with `ℝ` only where the source computes square roots /
cosines), stateful code becomes explicit state passing over a `QState`
record, and every external collaborator call (OpenAI embeddings, label
generation, text judgment, sklearn KMeans) is a function parameter
("oracle"), since those calls leave the repository.

Sources embedded:
  * `app/services/clustering.py` (similarity kernel, sentiment metrics)
  * `app/services/cluster_manager.py` (incremental assignment, bootstrap)
  * `app/services/consensus_service.py` (metrics thresholds, detection)
  * `app/services/llm_service.py` / `noble_message_service.py`
  * `app/state.py` (message ingestion with its duplicate guard)
-/

/- ## Data model (app/state.py) -/

/-- A Discord message as stored in the question state.  Only the fields the
clustering / consensus engine reads or writes are modelled.  `classification`
and `two_word_summary` are `Option` because they start as Python `None`. -/
structure DiscordMessage where
  message_id : String
  user_id : String
  username : String
  content : String
  classification : Option String
  two_word_summary : Option String
  deriving Repr, DecidableEq

/-- Embedding vectors: the provider returns fixed-length float vectors;
modelled as rational-valued vectors of a fixed dimension `d`. -/
abbrev Vec (d : ℕ) := Fin d → ℚ

/- ## Similarity kernel (app/services/clustering.py) -/

/-- Dot product of two vectors. -/
def dotQ {d : ℕ} (u v : Vec d) : ℚ := ∑ i, u i * v i

/-- Squared Euclidean norm of a vector. -/
def normSq {d : ℕ} (u : Vec d) : ℚ := ∑ i, u i * u i

/-- `sklearn.metrics.pairwise.cosine_similarity` for one pair of rows:
`⟨u,v⟩ / (‖u‖·‖v‖)`.  sklearn normalises each row, replacing a zero norm by 1
to avoid division by zero, so a zero vector has similarity 0 with anything. -/
noncomputable def cosineSim {d : ℕ} (u v : Vec d) : ℝ :=
  if normSq u = 0 ∨ normSq v = 0 then 0
  else (dotQ u v : ℝ) / (Real.sqrt (normSq u) * Real.sqrt (normSq v))

/-- All strictly-upper-triangular pairwise cosine similarities of a list of
vectors, row-major — the multiset `sim[np.triu_indices(n, 1)]` of
`clustering.intra_similarity`. -/
noncomputable def pairSims {d : ℕ} : List (Vec d) → List ℝ
  | [] => []
  | v :: rest => rest.map (cosineSim v) ++ pairSims rest

/-- `clustering.intra_similarity`: 1.0 for one vector, 0.0 for none, else the
mean of the strictly-upper-triangular pairwise cosine similarities (the
source's `if len(triu[0])` guard, dead for `n ≥ 2`, is kept). -/
noncomputable def intra_similarity {d : ℕ} (embeddings : List (Vec d)) : ℝ :=
  if embeddings.length ≤ 1 then
    (if embeddings.length = 1 then 1 else 0)
  else
    if (pairSims embeddings).length = 0 then 0
    else (pairSims embeddings).sum / ((pairSims embeddings).length : ℝ)

/-- Arithmetic mean of a list of vectors — `clustering.centroid` (`np.mean`
along axis 0).  The source raises on an empty input; callers in scope only
invoke it on non-empty groups, and the model returns the zero vector there. -/
def centroid {d : ℕ} (embeddings : List (Vec d)) : Vec d :=
  fun i => (embeddings.map (fun v => v i)).sum / embeddings.length

/- ## Sentiment encoding (clustering.sentiment_metrics and
     consensus_service.compute_cluster_metrics) -/

/-- The numeric sentiment map of `clustering.sentiment_metrics`:
the dict `{"positive": 1, "neutral": 0, "negative": -1}` read with
`.get(..., 0)`, so any other string encodes to 0. -/
def sentimentMap (c : String) : ℚ :=
  if c = "positive" then 1 else if c = "negative" then -1 else 0

/-- The numeric sentiment map of `consensus_service.compute_cluster_metrics`:
the dict `{"good": 1.0, "neutral": 0.0, "bad": -1.0}` read with
`.get(..., 0.0)`. -/
def consensusSentimentMap (c : String) : ℚ :=
  if c = "good" then 1 else if c = "bad" then -1 else 0

/-- Numeric sentiment values of a message list as computed by
`clustering.sentiment_metrics` (`m.classification or "neutral"`). -/
def sentimentVals (messages : List DiscordMessage) : List ℚ :=
  messages.map (fun m => sentimentMap (m.classification.getD "neutral"))

/-- Numeric sentiment values as computed by
`consensus_service.compute_cluster_metrics` (`msg.classification or "neutral"`). -/
def consensusSentimentVals (messages : List DiscordMessage) : List ℚ :=
  messages.map (fun m => consensusSentimentMap (m.classification.getD "neutral"))

/-- Mean of a list of rationals (`np.mean`; 0 on the empty list). -/
def listMean (xs : List ℚ) : ℚ := xs.sum / xs.length

/-- Population variance of a list of rationals: the square of `np.std`. -/
def popVar (xs : List ℚ) : ℚ := listMean (xs.map (fun x => (x - listMean xs) ^ 2))

/-- `np.std`: population standard deviation, the square root of `popVar`. -/
noncomputable def popStd (xs : List ℚ) : ℝ := Real.sqrt (popVar xs)

/-- The abstract sentiment classes of the specification. -/
inductive Sentiment where
  | positive
  | neutral
  | negative
  deriving Repr, DecidableEq

/-- The specification's numeric encoding: positive = +1, neutral = 0,
negative = −1. -/
def specEncode : Sentiment → ℚ
  | .positive => 1
  | .neutral => 0
  | .negative => -1

/-- The classification vocabulary produced by the backend
`llm_service.classify_message` (guarded by
`label if label in {"positive", "neutral", "negative"} else "neutral"`),
mapped to the sentiment class each token denotes. -/
def denoteBackendClass (c : String) : Option Sentiment :=
  if c = "positive" then some .positive
  else if c = "neutral" then some .neutral
  else if c = "negative" then some .negative
  else none

/-- The classification vocabulary produced by the `src/app` variant of
`llm_service.classify_message` (guarded by
`label if label in {"good", "neutral", "bad"} else "neutral"`), mapped to the
sentiment class each token denotes. -/
def denoteAppClass (c : String) : Option Sentiment :=
  if c = "good" then some .positive
  else if c = "neutral" then some .neutral
  else if c = "bad" then some .negative
  else none

/-- `clustering.sentiment_metrics`, average component. -/
def sentiment_metrics_avg (messages : List DiscordMessage) : ℚ :=
  if messages = [] then 0 else listMean (sentimentVals messages)

/-- `clustering.sentiment_metrics`, squared standard-deviation component
(`np.std(vals) ** 2`); kept squared so it stays rational. -/
def sentiment_metrics_var (messages : List DiscordMessage) : ℚ :=
  if messages = [] then 0 else popVar (sentimentVals messages)

/-- `clustering.sentiment_metrics`, standard-deviation component
(`np.std(vals)`, population standard deviation). -/
noncomputable def sentiment_metrics_std (messages : List DiscordMessage) : ℝ :=
  if messages = [] then 0 else popStd (sentimentVals messages)

/-- The `sentiment_std` metric of
`consensus_service.compute_cluster_metrics` (population `np.std` of the
encoded classifications; 1.0 for an empty cluster list, per the source's
empty-input early return). -/
noncomputable def consensus_sentiment_std (messages : List DiscordMessage) : ℝ :=
  if messages = [] then 1 else popStd (consensusSentimentVals messages)

/- ## Cluster and question state (app/state.py) -/

/-- A live cluster.  `intra_sim` and `sentiment_std` are real-valued because
the source stores `np` square roots / cosine means there; the control logic
never branches on them. -/
structure Cluster (d : ℕ) where
  cluster_id : String
  label : String
  centroid : Vec d
  message_ids : List String
  frozen : Bool
  intra_sim : ℝ
  sentiment_avg : ℚ
  sentiment_std : ℝ

/-- The active question's mutable state (the fields the clustering engine
touches). -/
structure QState (d : ℕ) where
  discord_messages : List DiscordMessage
  clusters : List (Cluster d)
  unassigned_buffer : List String
  two_word_summaries : List String

/-- `settings.CLUSTER_MAX_COUNT` (app/config.py). -/
def CLUSTER_MAX_COUNT : ℕ := 4

/-- `settings.CLUSTER_ASSIGNMENT_THRESHOLD` (app/config.py). -/
noncomputable def CLUSTER_ASSIGNMENT_THRESHOLD : ℝ := 73 / 100

/- ## Nearest-centroid assignment (clustering.assign_nearest) -/

/-- Index of the first occurrence of the maximum of a list — the semantics of
`np.argmax` (numpy documents that ties resolve to the first occurrence).
Returns 0 on the empty list (never consulted there by callers). -/
def argmaxIdx {α : Type} [LinearOrder α] : List α → ℕ
  | [] => 0
  | x :: xs =>
    if xs.isEmpty then 0
    else
      let r := argmaxIdx xs
      if xs.getD r x ≤ x then 0 else r + 1

/-- `clustering.assign_nearest(msg_emb, clusters, threshold)`: cosine
similarity of the message embedding against every cluster centroid; the
arg-max index if its similarity is ≥ threshold, else `None`
(`return best if sims[best] >= threshold else None`). -/
noncomputable def assign_nearest {d : ℕ} (msgEmb : Vec d) (clusters : List (Cluster d))
    (threshold : ℝ) : Option ℕ :=
  if clusters.isEmpty then none
  else
    let sims := clusters.map (fun c => cosineSim msgEmb c.centroid)
    let best := argmaxIdx sims
    if threshold ≤ sims.getD best 0 then some best else none

/- ## Consensus evaluator (app/services/consensus_service.py) -/

/-- The four per-cluster metrics returned by
`consensus_service.compute_cluster_metrics`.  Their values are produced by
real-valued numpy code and external collaborators (embeddings, guild-member
counts); for the threshold logic they are modelled as rationals, which
preserves every comparison the evaluator performs. -/
structure Metrics where
  cluster_size_ratio : ℚ
  user_ratio : ℚ
  sentiment_std : ℚ
  intra_similarity : ℚ
  deriving Repr, DecidableEq

/-- `consensus_service.check_consensus_conditions`: the conjunction of the
four threshold comparisons. -/
def check_consensus_conditions (m : Metrics) : Bool :=
  decide ((45 : ℚ) / 100 ≤ m.cluster_size_ratio)
    && decide ((50 : ℚ) / 100 ≤ m.user_ratio)
    && decide (m.sentiment_std ≤ (25 : ℚ) / 100)
    && decide ((55 : ℚ) / 100 ≤ m.intra_similarity)

/-- Python truthiness of `msg.two_word_summary` (`if msg.two_word_summary:`):
the message carries a cluster label and it is non-empty. -/
def msgLabel (m : DiscordMessage) : Option String :=
  match m.two_word_summary with
  | some l => if l = "" then none else some l
  | none => none

/-- Deduplication keeping first occurrences in order — the key order of the
Python dict `clusters` built by insertion in `detect_consensus_for_question`. -/
def firstDedupAux : List String → List String → List String
  | [], acc => acc.reverse
  | x :: xs, acc => if x ∈ acc then firstDedupAux xs acc else firstDedupAux xs (x :: acc)

/-- Distinct cluster labels of a message list, in first-appearance order. -/
def distinctLabels (msgs : List DiscordMessage) : List String :=
  firstDedupAux (msgs.filterMap msgLabel) []

/-- The messages grouped under one cluster label by
`detect_consensus_for_question`. -/
def labelMessages (msgs : List DiscordMessage) (label : String) : List DiscordMessage :=
  msgs.filter (fun m => msgLabel m = some label)

/-- The labels for which `detect_consensus_for_question` reaches a positive
consensus verdict: distinct labels with at least 2 messages whose metrics pass
`check_consensus_conditions`.  `metricsOf` is the oracle for
`compute_cluster_metrics` applied to the label's messages (it closes over the
full message list, the question state and the guild-member count, all fixed
within one detection run). -/
def detect_consensus_labels (metricsOf : List DiscordMessage → Metrics)
    (msgs : List DiscordMessage) : List String :=
  (distinctLabels msgs).filter
    (fun L => 2 ≤ (labelMessages msgs L).length
      && check_consensus_conditions (metricsOf (labelMessages msgs L)))

/-- A consensus event payload (label plus the synthesized solution). -/
structure ConsensusEvent where
  cluster_label : String
  solution_text : String
  deriving Repr, DecidableEq

/-- `detect_consensus_for_question`'s emitted events: for every label with a
positive verdict, the external solution-synthesis collaborator (`solution`
oracle, modelling `analyze_cluster`) is consulted and an event is emitted only
if it returns a result. -/
def detect_consensus_events (metricsOf : List DiscordMessage → Metrics)
    (solution : String → Option String) (msgs : List DiscordMessage) : List ConsensusEvent :=
  (detect_consensus_labels metricsOf msgs).filterMap
    (fun L => (solution L).map (fun s => ⟨L, s⟩))

/- ## Representative ("noble") message selection
     (llm_service.noble_message_per_cluster) -/

/-- Python `str.strip()`: remove whitespace from both ends. -/
def pyStrip (s : String) : String :=
  String.mk (((s.toList.dropWhile Char.isWhitespace).reverse.dropWhile
    Char.isWhitespace).reverse)

/-- Python `str.lower()` (character-wise lower-casing). -/
def pyLower (s : String) : String := String.mk (s.toList.map Char.toLower)

/-- Whether the first list is a prefix of the second. -/
def isPrefixList : List Char → List Char → Bool
  | [], _ => true
  | _ :: _, [] => false
  | a :: as, b :: bs => a == b && isPrefixList as bs

/-- Whether the first list occurs as a contiguous sublist of the second. -/
def isSubList (needle : List Char) : List Char → Bool
  | [] => needle.isEmpty
  | c :: rest => isPrefixList needle (c :: rest) || isSubList needle rest

/-- Python's substring test `a in b`. -/
def pyIn (a b : String) : Bool := isSubList a.toList b.toList

/-- `llm_service.noble_message_per_cluster(cluster_messages, ...)` with the
text returned by the external judgment collaborator passed in as `judged`
(the LLM call itself is outside the repository).  Mirrors the source: `None`
for no members, the unique member for a singleton, otherwise the first member
equal to the judged text modulo `strip`, then the first member related to it
by substring containment (`msg in selected or selected in msg`), then the
first member as last resort. -/
def noble_message_per_cluster (cluster_messages : List String) (judged : String) :
    Option String :=
  match cluster_messages with
  | [] => none
  | [m] => some m
  | _ =>
    let selected := pyStrip judged
    match cluster_messages.find? (fun m => pyStrip m == pyStrip selected) with
    | some m => some m
    | none =>
      match cluster_messages.find? (fun m => pyIn m selected || pyIn selected m) with
      | some m => some m
      | none => cluster_messages.head?

/- ## Bootstrap re-clustering (cluster_manager.bootstrap_fixed_kmeans) -/

/-- The external collaborators consumed by the cluster manager.  Each field
stands for a call that leaves the repository. -/
structure LabelOracles (d : ℕ) where
  /-- `embedding_cache.get_embedding/get_embeddings_batch`: content-addressed,
  so one function of the text. -/
  embOf : String → Vec d
  /-- `llm_service.two_word_label(texts, existing_labels, is_retry,
  is_hard_retry)`: the label generator. -/
  gen : List String → List String → Bool → Bool → String
  /-- The embedding-similarity collision test of the dedup loop: whether the
  maximal cosine similarity between the candidate label's embedding and the
  already-generated labels' embeddings exceeds 0.90. -/
  tooSimilar : String → List String → Bool
  /-- The choice of up-to-5 seed texts nearest the new centroid
  (`np.argsort` over real-valued cosine similarities of external embeddings);
  the label logic treats its output opaquely. -/
  selectSeedTexts : List String → List String
  /-- `uuid4()` for the new cluster at a given group index. -/
  freshId : ℕ → String

/-- A regex `\w` character: alphanumeric or underscore. -/
def isWordChar (c : Char) : Bool := c.isAlphanum || c == '_'

/-- Maximal runs of characters satisfying `p`, in order. -/
def splitRunsAux (p : Char → Bool) : List Char → List Char → List String
  | [], cur => if cur.isEmpty then [] else [String.mk cur.reverse]
  | c :: rest, cur =>
    if p c then splitRunsAux p rest (c :: cur)
    else if cur.isEmpty then splitRunsAux p rest []
    else String.mk cur.reverse :: splitRunsAux p rest []

/-- `re.findall(r'\b\w+\b', s)`: the maximal `\w`-runs of `s`. -/
def extractWords (s : String) : List String := splitRunsAux isWordChar s.toList []

/-- Python `s.split()`: whitespace-separated tokens, no empties. -/
def pySplitWs (s : String) : List String :=
  splitRunsAux (fun c => !c.isWhitespace) s.toList []

/-- The stopword set of the dedup fallback in `bootstrap_fixed_kmeans`. -/
def labelStopwords : List String :=
  ["the", "a", "an", "and", "or", "but", "in", "on", "at", "to", "for", "of",
   "with", "by", "is", "are", "was", "were"]

/-- `meaningful_words`: lowercased `\w`-tokens of the joined seed texts that
are not stopwords and are longer than 3 characters. -/
def meaningfulWords (label_texts : List String) : List String :=
  ((extractWords (String.intercalate " " label_texts)).filter
    (fun w => !(labelStopwords.contains (pyLower w)) && 3 < w.length)).map pyLower

/-- Python `str.capitalize()`: first character upper-cased, the rest
lower-cased. -/
def pyCapitalize (s : String) : String :=
  match s.toList with
  | [] => ""
  | c :: rest => String.mk (c.toUpper :: rest.map Char.toLower)

/-- `label_texts[0].split()[0] if label_texts else "new"`.  (When the first
seed text contains no token Python would raise; that dead edge is totalised
to "new".) -/
def fallbackWord (label_texts : List String) : String :=
  match label_texts with
  | [] => "new"
  | t :: _ => (pySplitWs t).headD "new"

/-- The distinguishing word the dedup fallback appends: the first meaningful
word of the seed texts, else the first whitespace token of the first seed
text, capitalised. -/
def distinguisher (label_texts : List String) : String :=
  match meaningfulWords label_texts with
  | w :: _ => pyCapitalize w
  | [] => pyCapitalize (fallbackWord label_texts)

/-- One pass of the label-generation retry loop of `bootstrap_fixed_kmeans`,
for the attempts `attempt, attempt+1, …` with `remaining` iterations left
(entered with `remaining = 3, attempt = 0`; `is_retry = attempt > 0`,
`is_hard_retry = attempt ≥ 2`).  A candidate is accepted if it is not a
case-insensitive duplicate of a label generated earlier in this bootstrap
pass and the embedding-similarity check does not flag it; on the final
attempt a duplicate or flagged candidate gets the distinguishing word
appended instead of being re-checked.  Returns `""` (Python `label = None`)
if the loop exhausts without setting a label. -/
def labelAttempt (gen : List String → List String → Bool → Bool → String)
    (tooSimilar : String → List String → Bool)
    (label_texts generated : List String) : ℕ → ℕ → String
  | 0, _ => ""
  | remaining + 1, attempt =>
    let cand := gen label_texts generated (decide (0 < attempt)) (decide (2 ≤ attempt))
    if (generated.map pyLower).contains (pyLower cand) then
      if remaining = 0 then cand ++ " " ++ distinguisher label_texts
      else labelAttempt gen tooSimilar label_texts generated remaining (attempt + 1)
    else if !generated.isEmpty && tooSimilar cand generated then
      if remaining = 0 then cand ++ " " ++ distinguisher label_texts
      else labelAttempt gen tooSimilar label_texts generated remaining (attempt + 1)
    else cand

/-- The label-dedup procedure (max 3 attempts, then the `if not label`
fallback to "summary message"). -/
def dedupLabel (gen : List String → List String → Bool → Bool → String)
    (tooSimilar : String → List String → Bool)
    (label_texts generated : List String) : String :=
  let l := labelAttempt gen tooSimilar label_texts generated 3 0
  if l = "" then "summary message" else l

/-- One step of the best-overlap scan over the previously-live clusters:
`overlap / min(|new|, |existing|)` on the id sets, kept when it exceeds 0.5
and the best ratio so far. -/
def overlapStep {d : ℕ} (newIds : List String) (acc : ℚ × Option (Cluster d))
    (c : Cluster d) : ℚ × Option (Cluster d) :=
  let ex := c.message_ids.dedup
  let inter := (newIds.dedup.filter (fun i => ex.contains i)).length
  let minSize := min newIds.dedup.length ex.length
  if 0 < minSize then
    let ratio : ℚ := (inter : ℚ) / (minSize : ℚ)
    if 1 / 2 < ratio ∧ acc.1 < ratio then (ratio, some c) else acc
  else acc

/-- The best-overlap search of the label carry-over path. -/
def bestOverlap {d : ℕ} (newIds : List String) (clusters : List (Cluster d)) :
    ℚ × Option (Cluster d) :=
  clusters.foldl (overlapStep newIds) (0, none)

/-- List of member indices of k-means group `cid`
(`np.where(cluster_labels == cluster_id)[0]`). -/
def groupIdx (kml : List ℕ) (cid : ℕ) : List ℕ :=
  (List.range kml.length).filter (fun i => kml.getD i 0 = cid)

/-- The cluster-construction loop of `bootstrap_fixed_kmeans` over the group
ids in `cids` (the source iterates `range(k)`), threading the
`generated_labels` accumulator.  Empty k-means groups are skipped.  `prior`
is the previously-live cluster list used for label carry-over; `kml` the
k-means labelling returned by the (seeded, external) `KMeans.fit_predict`. -/
noncomputable def buildClusters {d : ℕ} (o : LabelOracles d) (prior : List (Cluster d))
    (msgs : List DiscordMessage) (kml : List ℕ) :
    List ℕ → List String → List (Cluster d)
  | [], _ => []
  | cid :: cids, generated =>
    let idxs := groupIdx kml cid
    if idxs.isEmpty then buildClusters o prior msgs kml cids generated
    else
      let cmsgs := idxs.filterMap (fun i => msgs.get? i)
      let cembs := cmsgs.map (fun m => o.embOf m.content)
      let cent := centroid cembs
      let best := bestOverlap (cmsgs.map (fun m => m.message_id)) prior
      let carried : Option String :=
        match best.2 with
        | some ex => if 1 / 2 < best.1 then some ex.label else none
        | none => none
      let label :=
        match carried with
        | some L => L
        | none =>
          dedupLabel o.gen o.tooSimilar
            (o.selectSeedTexts (cmsgs.map (fun m => m.content))) generated
      let c : Cluster d :=
        { cluster_id := o.freshId cid
          label := label
          centroid := cent
          message_ids := cmsgs.map (fun m => m.message_id)
          frozen := false
          intra_sim := intra_similarity cembs
          sentiment_avg := sentiment_metrics_avg cmsgs
          sentiment_std := sentiment_metrics_std cmsgs }
      c :: buildClusters o prior msgs kml cids (generated ++ [label])

/-- `cluster_manager.bootstrap_fixed_kmeans`, with the external k-means run
(`KMeans(n_clusters=k, random_state=42, n_init=10).fit_predict` on the
L2-normalised cached embeddings) supplied as the labelling `kml`.  Early
returns when there is no message or fewer messages than `k`.  Afterwards the
cluster list is replaced wholesale, every message's `two_word_summary` is
rewritten from the new membership (the Python dict comprehension lets the
last containing cluster win), the label display list is rebuilt (the source
sorts it; order is irrelevant to the verified claims) and the unassigned
buffer is cleared. -/
noncomputable def bootstrap_fixed_kmeans {d : ℕ} (o : LabelOracles d) (k : ℕ)
    (kml : List ℕ) (q : QState d) : QState d :=
  if q.discord_messages.isEmpty then q
  else if q.discord_messages.length < k then q
  else
    let msgs := q.discord_messages
    let newClusters := buildClusters o q.clusters msgs kml (List.range k) []
    let lookup := fun (id : String) =>
      (newClusters.reverse).find? (fun c => c.message_ids.contains id)
    let msgs' := msgs.map (fun m =>
      match lookup m.message_id with
      | some c => { m with two_word_summary := some c.label }
      | none => m)
    { discord_messages := msgs'
      clusters := newClusters
      unassigned_buffer := []
      two_word_summaries := (newClusters.map (fun c => c.label)).dedup }

/- ## Incremental assignment (cluster_manager.assign_message) and the
     ingestion state machine (discord_bot/bot.py on_message) -/

/-- `state.add_message_to_active_question`: append the message unless one
with the same id is already stored (the duplicate guard); participant
bookkeeping and the websocket broadcast are outside the engine. -/
def add_message {d : ℕ} (q : QState d) (m : DiscordMessage) : QState d :=
  if (q.discord_messages.map (fun mm => mm.message_id)).contains m.message_id then q
  else { q with discord_messages := q.discord_messages ++ [m] }

/-- `cluster_manager.assign_message`, with the two embedding-provider calls'
fates passed in: `embOk` for `get_embedding(message.content)` and `batchOk`
for the `get_embeddings_batch` recomputing the matched cluster's centroid.
`Except.error s` models the call raising with the mutations performed so far
(`s`) left in place — Python state is global and an exception propagates past
it.  On a match the source appends to the cluster's membership and relabels
the message BEFORE the batch call, then recomputes centroid and
intra-similarity from the member embeddings. -/
noncomputable def assign_message_run {d : ℕ} (o : LabelOracles d) (q : QState d)
    (message : DiscordMessage) (embOk batchOk : Bool) :
    Except (QState d) (QState d) :=
  if !embOk then .error q
  else
    let emb := o.embOf message.content
    match assign_nearest emb q.clusters CLUSTER_ASSIGNMENT_THRESHOLD with
    | some idx =>
      match q.clusters.get? idx with
      | none => .ok q
      | some c =>
        let c1 := { c with message_ids := c.message_ids ++ [message.message_id] }
        let q1 : QState d :=
          { q with
            clusters := q.clusters.set idx c1
            discord_messages := q.discord_messages.map (fun m =>
              if m.message_id = message.message_id then
                { m with two_word_summary := some c.label }
              else m) }
        if !batchOk then .error q1
        else
          let texts := (q1.discord_messages.filter
            (fun m => c1.message_ids.contains m.message_id)).map (fun m => m.content)
          let embs := texts.map o.embOf
          let c2 := { c1 with centroid := centroid embs, intra_sim := intra_similarity embs }
          .ok { q1 with clusters := q1.clusters.set idx c2 }
    | none =>
      .ok { q with unassigned_buffer := q.unassigned_buffer ++ [message.message_id] }

/-- The operations that reach the engine: message ingestion
(`on_message`: guarded `add_message_to_active_question`, then `process_one`,
i.e. `assign_message`, called unconditionally) and a periodic bootstrap run
(with the external k-means labelling attached). -/
inductive Op (d : ℕ) where
  | ingest (m : DiscordMessage) (embOk batchOk : Bool)
  | runBootstrap (kml : List ℕ)

/-- One engine step.  A bootstrap step applies `bootstrap_fixed_kmeans` with
the supplied k-means labelling; a labelling sklearn could not have produced
(wrong length or an out-of-range group id) is unreachable and modelled as a
no-op.  An ingest step runs the guarded append and then the (unguarded)
assignment; if a collaborator call raised, `on_message` catches and logs the
exception, keeping whatever state the mutation left behind. -/
noncomputable def step {d : ℕ} (o : LabelOracles d) (q : QState d) : Op d → QState d
  | .ingest m embOk batchOk =>
    let q1 := add_message q m
    match assign_message_run o q1 m embOk batchOk with
    | .ok q2 => q2
    | .error q2 => q2
  | .runBootstrap kml =>
    if kml.length = q.discord_messages.length ∧ ∀ v ∈ kml, v < CLUSTER_MAX_COUNT then
      bootstrap_fixed_kmeans o CLUSTER_MAX_COUNT kml q
    else q

/-- Run a sequence of operations from a starting state. -/
noncomputable def runOps {d : ℕ} (o : LabelOracles d) (q0 : QState d)
    (ops : List (Op d)) : QState d :=
  ops.foldl (step o) q0

/-- Every message id recorded as assigned somewhere: the concatenation of all
cluster memberships and the unassigned buffer. -/
def assignedIds {d : ℕ} (q : QState d) : List String :=
  (q.clusters.map (fun c => c.message_ids)).flatten ++ q.unassigned_buffer

/-- The ids of the stored Discord messages. -/
def msgIds {d : ℕ} (q : QState d) : List String :=
  q.discord_messages.map (fun m => m.message_id)

/-- The Discussion invariant of the spec's data model: a message id appears
in at most one cluster's membership and at most once in the unassigned
buffer, never both (`(assignedIds q).Nodup`); assigned ids reference stored
messages; stored message ids are unique. -/
def StateInv {d : ℕ} (q : QState d) : Prop :=
  (assignedIds q).Nodup ∧ (∀ id ∈ assignedIds q, id ∈ msgIds q) ∧ (msgIds q).Nodup

/-- The ids ingested by a trace of operations. -/
def ingestedIds {d : ℕ} (ops : List (Op d)) : List String :=
  ops.filterMap (fun op =>
    match op with
    | .ingest m _ _ => some m.message_id
    | .runBootstrap _ => none)

/- ## Helper lemmas -/

theorem mem_firstDedupAux (l : List String) :
    ∀ (acc : List String) (x : String), x ∈ firstDedupAux l acc ↔ x ∈ l ∨ x ∈ acc := by
  induction l with
  | nil =>
    intro acc x
    simp [firstDedupAux]
  | cons y ys ih =>
    intro acc x
    by_cases hy : y ∈ acc
    · simp only [firstDedupAux, if_pos hy, ih]
      constructor
      · rintro (h | h)
        · exact Or.inl (List.mem_cons_of_mem _ h)
        · exact Or.inr h
      · rintro (h | h)
        · rcases List.mem_cons.mp h with rfl | h
          · exact Or.inr hy
          · exact Or.inl h
        · exact Or.inr h
    · simp only [firstDedupAux, if_neg hy, ih]
      constructor
      · rintro (h | h)
        · exact Or.inl (List.mem_cons_of_mem _ h)
        · rcases List.mem_cons.mp h with rfl | h
          · exact Or.inl (List.mem_cons_self _ _)
          · exact Or.inr h
      · rintro (h | h)
        · rcases List.mem_cons.mp h with rfl | h
          · exact Or.inr (List.mem_cons_self _ _)
          · exact Or.inl h
        · exact Or.inr (List.mem_cons_of_mem _ h)

theorem mem_distinctLabels (msgs : List DiscordMessage) (L : String) :
    L ∈ distinctLabels msgs ↔ ∃ m ∈ msgs, msgLabel m = some L := by
  simp [distinctLabels, mem_firstDedupAux, List.mem_filterMap]

/- ## C1: consensus verdict -/

/-- C1.  For every distinct cluster label, `detect_consensus_for_question`
reaches a positive consensus verdict iff the label has at least 2 associated
messages and `check_consensus_conditions` holds of its metrics; the check is
exactly the conjunction `size_ratio ≥ 0.45 ∧ participant_ratio ≥ 0.50 ∧
sentiment_stddev ≤ 0.25 ∧ intra_similarity ≥ 0.55`; a label with fewer than 2
messages is never declared; lowering any single metric below its threshold
with the other three fixed flips the verdict to false; and an event is
emitted for a declared label exactly when the solution collaborator returns a
result for it. -/
theorem consensus_verdict_characterization
    (metricsOf : List DiscordMessage → Metrics) (msgs : List DiscordMessage)
    (L : String) (solution : String → Option String) (s : String)
    (m : Metrics) (x : ℚ) :
    (L ∈ detect_consensus_labels metricsOf msgs ↔
      2 ≤ (labelMessages msgs L).length ∧
        check_consensus_conditions (metricsOf (labelMessages msgs L)) = true)
    ∧ ((labelMessages msgs L).length < 2 →
        L ∉ detect_consensus_labels metricsOf msgs)
    ∧ (check_consensus_conditions m = true ↔
        ((45 : ℚ) / 100 ≤ m.cluster_size_ratio ∧ (50 : ℚ) / 100 ≤ m.user_ratio ∧
          m.sentiment_std ≤ (25 : ℚ) / 100 ∧ (55 : ℚ) / 100 ≤ m.intra_similarity))
    ∧ (check_consensus_conditions m = true →
        (x < (45 : ℚ) / 100 →
          check_consensus_conditions { m with cluster_size_ratio := x } = false)
      ∧ (x < (50 : ℚ) / 100 →
          check_consensus_conditions { m with user_ratio := x } = false)
      ∧ ((25 : ℚ) / 100 < x →
          check_consensus_conditions { m with sentiment_std := x } = false)
      ∧ (x < (55 : ℚ) / 100 →
          check_consensus_conditions { m with intra_similarity := x } = false))
    ∧ ((⟨L, s⟩ : ConsensusEvent) ∈ detect_consensus_events metricsOf solution msgs ↔
        (L ∈ detect_consensus_labels metricsOf msgs ∧ solution L = some s)) := by
  have hmem : L ∈ detect_consensus_labels metricsOf msgs ↔
      2 ≤ (labelMessages msgs L).length ∧
        check_consensus_conditions (metricsOf (labelMessages msgs L)) = true := by
    unfold detect_consensus_labels
    rw [List.mem_filter]
    simp only [Bool.and_eq_true, decide_eq_true_eq]
    constructor
    · rintro ⟨-, h2, h3⟩
      exact ⟨h2, h3⟩
    · rintro ⟨h2, h3⟩
      refine ⟨?_, h2, h3⟩
      rw [mem_distinctLabels]
      have hne : labelMessages msgs L ≠ [] := by
        intro he
        rw [he] at h2
        simp at h2
      rcases List.exists_mem_of_ne_nil _ hne with ⟨mm, hmm⟩
      rcases List.mem_filter.mp hmm with ⟨hin, hlab⟩
      exact ⟨mm, hin, by simpa using hlab⟩
  refine ⟨hmem, ?_, ?_, ?_, ?_⟩
  · intro hlt hin
    have := (hmem.mp hin).1
    omega
  · simp [check_consensus_conditions, and_assoc]
  · intro hc
    have h4 := by
      simpa [check_consensus_conditions, and_assoc] using hc
    refine ⟨?_, ?_, ?_, ?_⟩
    · intro hx
      have : ¬ ((45 : ℚ) / 100 ≤ x) := not_le.mpr hx
      simp [check_consensus_conditions, this]
    · intro hx
      have : ¬ ((50 : ℚ) / 100 ≤ x) := not_le.mpr hx
      simp [check_consensus_conditions, this]
    · intro hx
      have : ¬ (x ≤ (25 : ℚ) / 100) := not_le.mpr hx
      simp [check_consensus_conditions, this]
    · intro hx
      have : ¬ ((55 : ℚ) / 100 ≤ x) := not_le.mpr hx
      simp [check_consensus_conditions, this]
  · unfold detect_consensus_events
    rw [List.mem_filterMap]
    constructor
    · rintro ⟨a, ha, hf⟩
      rcases Option.map_eq_some'.mp hf with ⟨v, hv, he⟩
      cases he
      exact ⟨ha, hv⟩
    · rintro ⟨hin, hs⟩
      exact ⟨L, hin, by rw [hs]; rfl⟩

/-- Witness for C1 at concrete inputs: two messages labelled "ai", constant
metrics (0.5, 0.6, 0.1, 0.6) — the declared verdict holds — and the spec's
scenario perturbation `intra_similarity := 0.5` flips the check to false. -/
theorem consensus_verdict_characterization_witness :
    "ai" ∈ detect_consensus_labels (fun _ => (⟨1/2, 3/5, 1/10, 3/5⟩ : Metrics))
      [⟨"1", "u1", "alice", "more budget", some "good", some "ai"⟩,
       ⟨"2", "u2", "bob", "budget now", some "good", some "ai"⟩]
    ∧ check_consensus_conditions ⟨1/2, 3/5, 1/10, 1/2⟩ = false := by
  have h := consensus_verdict_characterization
    (fun _ => (⟨1/2, 3/5, 1/10, 3/5⟩ : Metrics))
    [⟨"1", "u1", "alice", "more budget", some "good", some "ai"⟩,
     ⟨"2", "u2", "bob", "budget now", some "good", some "ai"⟩]
    "ai" (fun _ => some "sol") "sol" ⟨1/2, 3/5, 1/10, 3/5⟩ (1/2)
  refine ⟨h.1.mpr ⟨by decide, by norm_num [check_consensus_conditions]⟩, ?_⟩
  exact (h.2.2.2.1 (by norm_num [check_consensus_conditions])).2.2.2 (by norm_num)

/- ## C4: sentiment encoding -/

theorem sentimentMap_denote (c : String) (s : Sentiment)
    (h : denoteBackendClass c = some s) : sentimentMap c = specEncode s := by
  unfold denoteBackendClass at h
  split_ifs at h with h1 h2 h3
  · obtain rfl := Option.some.inj h
    simp [sentimentMap, h1, specEncode]
  · obtain rfl := Option.some.inj h
    simp [sentimentMap, h1, h2, specEncode]
  · obtain rfl := Option.some.inj h
    simp [sentimentMap, h1, h2, h3, specEncode]

theorem consensusSentimentMap_denote (c : String) (s : Sentiment)
    (h : denoteAppClass c = some s) : consensusSentimentMap c = specEncode s := by
  unfold denoteAppClass at h
  split_ifs at h with h1 h2 h3
  · obtain rfl := Option.some.inj h
    simp [consensusSentimentMap, h1, specEncode]
  · obtain rfl := Option.some.inj h
    simp [consensusSentimentMap, h1, h2, specEncode]
  · obtain rfl := Option.some.inj h
    simp [consensusSentimentMap, h1, h2, h3, specEncode]

theorem popVar_nil : popVar [] = 0 := by
  simp [popVar, listMean]

theorem popStd_nil : popStd [] = 0 := by
  simp [popStd, popVar_nil]

/-- C4.  The `sentiment_stddev` used by the bootstrap cluster statistics
(`clustering.sentiment_metrics`) and by the Consensus Evaluator
(`compute_cluster_metrics`) is the population standard deviation of the
numeric encoding of each member's sentiment class with positive = +1,
neutral = 0, negative = −1 — each under the vocabulary its own classifier
actually produces (`positive/neutral/negative` for the backend
`classify_message`, `good/neutral/bad` for the `src/app` variant): whenever
the stored classifications denote the sentiment classes `ss`, the encoded
values equal `ss.map specEncode` and the computed stddev equals the
population stddev of that encoding. -/
theorem sentiment_stddev_is_spec_encoding
    (c : String) (s : Sentiment) (msgs : List DiscordMessage) (ss : List Sentiment) :
    (denoteBackendClass c = some s → sentimentMap c = specEncode s)
    ∧ (denoteAppClass c = some s → consensusSentimentMap c = specEncode s)
    ∧ (sentimentMap "positive" = 1 ∧ sentimentMap "neutral" = 0 ∧
        sentimentMap "negative" = -1 ∧ consensusSentimentMap "good" = 1 ∧
        consensusSentimentMap "neutral" = 0 ∧ consensusSentimentMap "bad" = -1)
    ∧ (List.Forall₂
        (fun m t => denoteBackendClass (m.classification.getD "neutral") = some t) msgs ss →
        sentimentVals msgs = ss.map specEncode ∧
          sentiment_metrics_std msgs = popStd (ss.map specEncode))
    ∧ (List.Forall₂
        (fun m t => denoteAppClass (m.classification.getD "neutral") = some t) msgs ss →
        consensusSentimentVals msgs = ss.map specEncode ∧
          (msgs ≠ [] → consensus_sentiment_std msgs = popStd (ss.map specEncode))) := by
  refine ⟨sentimentMap_denote c s, consensusSentimentMap_denote c s, by decide, ?_, ?_⟩
  · intro hf
    have hvals : sentimentVals msgs = ss.map specEncode := by
      induction hf with
      | nil => rfl
      | cons h _ ih =>
        simp only [sentimentVals, List.map_cons] at ih ⊢
        rw [sentimentMap_denote _ _ h, ih]
    refine ⟨hvals, ?_⟩
    unfold sentiment_metrics_std
    split_ifs with he
    · rw [he] at hvals
      rw [← hvals]
      simp [sentimentVals, popStd_nil]
    · rw [hvals]
  · intro hf
    have hvals : consensusSentimentVals msgs = ss.map specEncode := by
      induction hf with
      | nil => rfl
      | cons h _ ih =>
        simp only [consensusSentimentVals, List.map_cons] at ih ⊢
        rw [consensusSentimentMap_denote _ _ h, ih]
    refine ⟨hvals, ?_⟩
    intro hne
    unfold consensus_sentiment_std
    rw [if_neg hne, hvals]

/-- Witness for C4 at concrete inputs: one positively-classified message per
vocabulary. -/
theorem sentiment_stddev_is_spec_encoding_witness :
    sentimentMap "positive" = specEncode .positive
    ∧ sentimentVals [⟨"1", "u", "alice", "yes", some "positive", none⟩]
        = [Sentiment.positive].map specEncode
    ∧ consensusSentimentVals [⟨"1", "u", "alice", "yes", some "good", none⟩]
        = [Sentiment.positive].map specEncode := by
  have h := sentiment_stddev_is_spec_encoding "positive" .positive
    [⟨"1", "u", "alice", "yes", some "positive", none⟩] [.positive]
  have h2 := sentiment_stddev_is_spec_encoding "positive" .positive
    [⟨"1", "u", "alice", "yes", some "good", none⟩] [.positive]
  refine ⟨h.1 (by decide), ?_, ?_⟩
  · exact (h.2.2.2.1 (List.Forall₂.cons (by decide) List.Forall₂.nil)).1
  · exact (h2.2.2.2.2 (List.Forall₂.cons (by decide) List.Forall₂.nil)).1

/- ## C9: representative selection -/

/-- C9.  For every non-empty cluster and every text the external judgment
collaborator returns, `noble_message_per_cluster` returns a member of the
cluster; a singleton cluster yields its unique member; if the judged text
exactly matches a member (modulo `strip`), a matching member is returned; if
none matches exactly but some member is substring-related to the judged
text, such a member is returned; otherwise the first member is returned as
last resort. -/
theorem noble_message_selects_member (msgs : List String) (judged : String)
    (h : msgs ≠ []) :
    (∃ m, noble_message_per_cluster msgs judged = some m ∧ m ∈ msgs)
    ∧ (∀ m0, msgs = [m0] → noble_message_per_cluster msgs judged = some m0)
    ∧ ((∃ m ∈ msgs, pyStrip m = pyStrip (pyStrip judged)) →
        ∃ m, noble_message_per_cluster msgs judged = some m ∧ m ∈ msgs ∧
          pyStrip m = pyStrip (pyStrip judged))
    ∧ ((∀ m ∈ msgs, pyStrip m ≠ pyStrip (pyStrip judged)) →
        (∃ m ∈ msgs, (pyIn m (pyStrip judged) || pyIn (pyStrip judged) m) = true) →
        ∃ m, noble_message_per_cluster msgs judged = some m ∧ m ∈ msgs ∧
          (pyIn m (pyStrip judged) || pyIn (pyStrip judged) m) = true)
    ∧ (2 ≤ msgs.length →
        (∀ m ∈ msgs, pyStrip m ≠ pyStrip (pyStrip judged)) →
        (∀ m ∈ msgs, (pyIn m (pyStrip judged) || pyIn (pyStrip judged) m) = false) →
        noble_message_per_cluster msgs judged = msgs.head?) := by
  match msgs, h with
  | [m0], _ =>
    refine ⟨⟨m0, rfl, List.mem_singleton_self m0⟩, ?_, ?_, ?_, ?_⟩
    · intro m1 he
      cases he
      rfl
    · rintro ⟨m, hm, hs⟩
      rcases List.mem_singleton.mp hm with rfl
      exact ⟨m, rfl, List.mem_singleton_self m, hs⟩
    · rintro _ ⟨m, hm, hs⟩
      rcases List.mem_singleton.mp hm with rfl
      exact ⟨m, rfl, List.mem_singleton_self m, hs⟩
    · intro hlen
      simp at hlen
  | a :: b :: t, _ =>
    have hred : noble_message_per_cluster (a :: b :: t) judged =
        (match (a :: b :: t).find? (fun m => pyStrip m == pyStrip (pyStrip judged)) with
         | some m => some m
         | none =>
           match (a :: b :: t).find?
               (fun m => pyIn m (pyStrip judged) || pyIn (pyStrip judged) m) with
           | some m => some m
           | none => (a :: b :: t).head?) := rfl
    rcases hfind : (a :: b :: t).find? (fun m => pyStrip m == pyStrip (pyStrip judged)) with
      _ | m1
    · rcases hfind2 : (a :: b :: t).find?
          (fun m => pyIn m (pyStrip judged) || pyIn (pyStrip judged) m) with _ | m2
      · have hres : noble_message_per_cluster (a :: b :: t) judged = some a := by
          rw [hred, hfind, hfind2]
          rfl
        refine ⟨⟨a, hres, List.mem_cons_self a _⟩, ?_, ?_, ?_, ?_⟩
        · intro m1 he
          cases he
        · rintro ⟨m, hm, hs⟩
          have := List.find?_eq_none.mp hfind m hm
          simp [hs] at this
        · rintro _ ⟨m, hm, hs⟩
          have := List.find?_eq_none.mp hfind2 m hm
          simp [hs] at this
        · intro _ _ _
          rw [hres]
          rfl
      · have hres : noble_message_per_cluster (a :: b :: t) judged = some m2 := by
          rw [hred, hfind, hfind2]
        have hmem : m2 ∈ a :: b :: t := List.mem_of_find?_eq_some hfind2
        have hp : (pyIn m2 (pyStrip judged) || pyIn (pyStrip judged) m2) = true := by
          have hq := List.find?_some hfind2
          simpa using hq
        refine ⟨⟨m2, hres, hmem⟩, ?_, ?_, ?_, ?_⟩
        · intro m1 he
          cases he
        · rintro ⟨m, hm, hs⟩
          have := List.find?_eq_none.mp hfind m hm
          simp [hs] at this
        · intro _ _
          exact ⟨m2, hres, hmem, hp⟩
        · intro _ _ hall
          have := hall m2 hmem
          rw [hp] at this
          cases this
    · have hres : noble_message_per_cluster (a :: b :: t) judged = some m1 := by
        rw [hred, hfind]
      have hmem : m1 ∈ a :: b :: t := List.mem_of_find?_eq_some hfind
      have hp : pyStrip m1 = pyStrip (pyStrip judged) := by
        have := List.find?_some hfind
        simpa using this
      refine ⟨⟨m1, hres, hmem⟩, ?_, ?_, ?_, ?_⟩
      · intro m0 he
        cases he
      · intro _
        exact ⟨m1, hres, hmem, hp⟩
      · intro hnone _
        exact absurd hp (hnone m1 hmem)
      · intro _ hnone _
        exact absurd hp (hnone m1 hmem)

/-- Witness for C9 at concrete inputs: two members, an unrelated judged text,
so the first member is returned and is a member. -/
theorem noble_message_selects_member_witness :
    (∃ m, noble_message_per_cluster ["budget approval", "room scheduling"] "qq" = some m ∧
      m ∈ ["budget approval", "room scheduling"])
    ∧ noble_message_per_cluster ["budget approval", "room scheduling"] "qq" =
        (["budget approval", "room scheduling"]).head? := by
  have h := noble_message_selects_member ["budget approval", "room scheduling"] "qq"
    (by decide)
  exact ⟨h.1, h.2.2.2.2 (by decide) (by decide) (by decide)⟩

/- ## C8: nearest-centroid threshold -/

theorem getD_indep {α : Type} (l : List α) (n : ℕ) (hn : n < l.length) (d1 d2 : α) :
    l.getD n d1 = l.getD n d2 := by
  rw [List.getD_eq_getElem?_getD, List.getD_eq_getElem?_getD, List.getElem?_eq_getElem hn]
  rfl

theorem argmaxIdx_spec {α : Type} [LinearOrder α] (a0 : α) (l : List α) (h : l ≠ []) :
    argmaxIdx l < l.length ∧
    (∀ j, j < l.length → l.getD j a0 ≤ l.getD (argmaxIdx l) a0) ∧
    (∀ j, j < argmaxIdx l → l.getD j a0 < l.getD (argmaxIdx l) a0) := by
  induction l with
  | nil => exact absurd rfl h
  | cons x xs ih =>
    rcases xs with _ | ⟨y, t⟩
    · refine ⟨by simp [argmaxIdx], ?_, ?_⟩
      · intro j hj
        have hj0 : j = 0 := by
          simp at hj
          omega
        subst hj0
        simp [argmaxIdx]
      · intro j hj
        simp [argmaxIdx] at hj
    · have hxs : (y :: t) ≠ [] := by simp
      obtain ⟨ihlt, ihmax, ihfirst⟩ := ih hxs
      have hred : argmaxIdx (x :: y :: t) =
          if (y :: t).getD (argmaxIdx (y :: t)) x ≤ x then 0 else argmaxIdx (y :: t) + 1 := by
        simp [argmaxIdx]
      have hdef : (y :: t).getD (argmaxIdx (y :: t)) x = (y :: t).getD (argmaxIdx (y :: t)) a0 :=
        getD_indep _ _ ihlt _ _
      by_cases hc : (y :: t).getD (argmaxIdx (y :: t)) x ≤ x
      · rw [hred, if_pos hc]
        have hcx : (y :: t).getD (argmaxIdx (y :: t)) a0 ≤ x := by rw [← hdef]; exact hc
        refine ⟨by simp, ?_, ?_⟩
        · intro j hj
          rcases j with _ | j
          · simp
          · have hj' : j < (y :: t).length := by simpa using hj
            have h1 : (y :: t).getD j a0 ≤ (y :: t).getD (argmaxIdx (y :: t)) a0 :=
              ihmax j hj'
            simpa using le_trans h1 hcx
        · intro j hj
          omega
      · rw [hred, if_neg hc]
        push_neg at hc
        have hcx : x < (y :: t).getD (argmaxIdx (y :: t)) a0 := by rw [← hdef]; exact hc
        have hglt : (x :: y :: t).getD (argmaxIdx (y :: t) + 1) a0 =
            (y :: t).getD (argmaxIdx (y :: t)) a0 := by
          simp [List.getD_cons_succ]
        refine ⟨by simpa using ihlt, ?_, ?_⟩
        · intro j hj
          rcases j with _ | j
          · rw [hglt]
            simpa using le_of_lt hcx
          · have hj' : j < (y :: t).length := by simpa using hj
            rw [hglt]
            simpa using ihmax j hj'
        · intro j hj
          rcases j with _ | j
          · rw [hglt]
            simpa using hcx
          · have hj' : j < argmaxIdx (y :: t) := by omega
            rw [hglt]
            simpa using ihfirst j hj'

/-- C8.  For every query embedding, non-empty cluster list and threshold,
`assign_nearest` computes the cosine similarity against every centroid and:
a returned index is the first arg-max of those similarities and its
similarity is ≥ threshold; whenever the arg-max similarity is ≥ threshold
the arg-max index is returned; `None` is returned exactly when every
centroid's similarity is < threshold; in particular an arg-max similarity of
`threshold − ε` yields `None` and one of `threshold + ε` yields the arg-max
index, for any `ε > 0`. -/
theorem assign_nearest_threshold {d : ℕ} (msgEmb : Vec d) (clusters : List (Cluster d))
    (threshold : ℝ) (i : ℕ) (ε : ℝ) (h : clusters ≠ []) (hε : 0 < ε) :
    let sims := clusters.map (fun c => cosineSim msgEmb c.centroid)
    (assign_nearest msgEmb clusters threshold = some i →
      i = argmaxIdx sims ∧ i < clusters.length ∧
        (∀ j, j < clusters.length → sims.getD j 0 ≤ sims.getD i 0) ∧
        (∀ j, j < i → sims.getD j 0 < sims.getD i 0) ∧
        threshold ≤ sims.getD i 0)
    ∧ (threshold ≤ sims.getD (argmaxIdx sims) 0 →
        assign_nearest msgEmb clusters threshold = some (argmaxIdx sims))
    ∧ (assign_nearest msgEmb clusters threshold = none ↔
        ∀ j, j < clusters.length → sims.getD j 0 < threshold)
    ∧ (sims.getD (argmaxIdx sims) 0 = threshold - ε →
        assign_nearest msgEmb clusters threshold = none)
    ∧ (sims.getD (argmaxIdx sims) 0 = threshold + ε →
        assign_nearest msgEmb clusters threshold = some (argmaxIdx sims)) := by
  intro sims
  have hlen : sims.length = clusters.length := List.length_map _ _
  have hsne : sims ≠ [] := by
    intro he
    apply h
    rcases clusters with _ | ⟨c, cs⟩
    · rfl
    · simp [sims] at he
  obtain ⟨hlt, hmax, hfirst⟩ := argmaxIdx_spec (0 : ℝ) sims hsne
  have hempty : clusters.isEmpty = false := by
    rcases clusters with _ | ⟨c, cs⟩
    · exact absurd rfl h
    · rfl
  have hred : assign_nearest msgEmb clusters threshold =
      if threshold ≤ sims.getD (argmaxIdx sims) 0 then some (argmaxIdx sims) else none := by
    unfold assign_nearest
    rw [hempty]
    rfl
  constructor
  · intro hi
    rw [hred] at hi
    by_cases hth : threshold ≤ sims.getD (argmaxIdx sims) 0
    · rw [if_pos hth] at hi
      obtain rfl := Option.some.inj hi
      refine ⟨rfl, hlen ▸ hlt, ?_, hfirst, hth⟩
      intro j hj
      exact hmax j (by omega)
    · rw [if_neg hth] at hi
      cases hi
  refine ⟨?_, ?_, ?_, ?_⟩
  · intro hth
    rw [hred, if_pos hth]
  · rw [hred]
    by_cases hth : threshold ≤ sims.getD (argmaxIdx sims) 0
    · rw [if_pos hth]
      constructor
      · intro hc
        cases hc
      · intro hall
        have := hall (argmaxIdx sims) (by omega)
        exact absurd hth (not_le.mpr this)
    · rw [if_neg hth]
      push_neg at hth
      constructor
      · intro _ j hj
        exact lt_of_le_of_lt (hmax j (by omega)) hth
      · intro _
        rfl
  · intro heq
    rw [hred, if_neg]
    rw [heq]
    linarith
  · intro heq
    rw [hred, if_pos]
    rw [heq]
    linarith

/-- Witness for C8 at a concrete input: dimension 1, a single cluster with
unit centroid, a unit query (similarity 1) and threshold 1/2 = 1 − 1/2:
the arg-max index 0 is returned. -/
theorem assign_nearest_threshold_witness :
    ([(⟨"c0", "L", fun _ => 1, ["m1"], false, 1, 0, 0⟩ : Cluster 1)] ≠ [])
    ∧ (0 : ℝ) < 1 / 2
    ∧ assign_nearest (fun _ => (1 : ℚ))
        [(⟨"c0", "L", fun _ => 1, ["m1"], false, 1, 0, 0⟩ : Cluster 1)]
        (1 / 2) = some 0 := by
  have hne : ([(⟨"c0", "L", fun _ => 1, ["m1"], false, 1, 0, 0⟩ : Cluster 1)] ≠ []) := by
    simp
  have hε : (0 : ℝ) < 1 / 2 := by norm_num
  have h := assign_nearest_threshold (fun _ => (1 : ℚ))
    [(⟨"c0", "L", fun _ => 1, ["m1"], false, 1, 0, 0⟩ : Cluster 1)] (1 / 2) 0 (1 / 2) hne hε
  have hcos : cosineSim (fun _ : Fin 1 => (1 : ℚ)) (fun _ => (1 : ℚ)) = 1 := by
    simp [cosineSim, normSq, dotQ, Fin.sum_univ_one, Real.sqrt_one]
  refine ⟨hne, hε, ?_⟩
  apply h.2.1
  simp only [List.map_cons, List.map_nil, hcos]
  have hidx : argmaxIdx [(1 : ℝ)] = 0 := by simp [argmaxIdx]
  rw [hidx]
  norm_num

/- ## C5: intra-similarity range -/

theorem normSq_nonneg {d : ℕ} (u : Vec d) : 0 ≤ normSq u :=
  Finset.sum_nonneg fun i _ => mul_self_nonneg (u i)

theorem cosineSim_bounds {d : ℕ} (u v : Vec d) :
    -1 ≤ cosineSim u v ∧ cosineSim u v ≤ 1 := by
  rw [← abs_le]
  unfold cosineSim
  split_ifs with h0
  · simp
  · push_neg at h0
    have ha : (0 : ℚ) < normSq u := lt_of_le_of_ne (normSq_nonneg u) (Ne.symm h0.1)
    have hb : (0 : ℚ) < normSq v := lt_of_le_of_ne (normSq_nonneg v) (Ne.symm h0.2)
    have hcs : (dotQ u v) ^ 2 ≤ normSq u * normSq v := by
      have := Finset.sum_mul_sq_le_sq_mul_sq Finset.univ u v
      simpa [dotQ, normSq, sq] using this
    have hcsR : ((dotQ u v : ℝ)) ^ 2 ≤ (normSq u : ℝ) * (normSq v : ℝ) := by
      exact_mod_cast hcs
    have habs : |(dotQ u v : ℝ)| ≤ Real.sqrt ((normSq u : ℝ) * (normSq v : ℝ)) := by
      rw [← Real.sqrt_sq_eq_abs]
      exact Real.sqrt_le_sqrt hcsR
    rw [Real.sqrt_mul (by exact_mod_cast ha.le)] at habs
    have hden : 0 < Real.sqrt (normSq u : ℝ) * Real.sqrt (normSq v : ℝ) := by
      apply mul_pos <;> exact Real.sqrt_pos.mpr (by exact_mod_cast ‹_›)
    rw [abs_div, abs_of_pos hden, div_le_one hden]
    exact habs

theorem mem_pairSims_bounds {d : ℕ} (embs : List (Vec d)) :
    ∀ x ∈ pairSims embs, -1 ≤ x ∧ x ≤ 1 := by
  induction embs with
  | nil => intro x hx; cases hx
  | cons v rest ih =>
    intro x hx
    rcases List.mem_append.mp hx with hx | hx
    · rcases List.mem_map.mp hx with ⟨w, _, rfl⟩
      exact cosineSim_bounds v w
    · exact ih x hx

theorem pairSims_length {d : ℕ} (embs : List (Vec d)) :
    2 * (pairSims embs).length = embs.length * (embs.length - 1) := by
  induction embs with
  | nil => rfl
  | cons v rest ih =>
    simp only [pairSims, List.length_append, List.length_map, List.length_cons,
      Nat.add_sub_cancel] at ih ⊢
    rcases rest with _ | ⟨w, ws⟩
    · rfl
    · simp only [List.length_cons, Nat.add_sub_cancel] at ih ⊢
      calc 2 * (ws.length + 1 + (pairSims (w :: ws)).length)
          = 2 * (ws.length + 1) + 2 * (pairSims (w :: ws)).length := by ring
        _ = 2 * (ws.length + 1) + (ws.length + 1) * ws.length := by rw [ih]
        _ = (ws.length + 1 + 1) * (ws.length + 1) := by ring

theorem pairSims_ne_nil {d : ℕ} (embs : List (Vec d)) (h : 2 ≤ embs.length) :
    pairSims embs ≠ [] := by
  rcases embs with _ | ⟨a, _ | ⟨b, t⟩⟩
  · simp at h
  · simp at h
  · simp [pairSims]

theorem list_mean_bounds (l : List ℝ) (hne : l ≠ [])
    (h : ∀ x ∈ l, -1 ≤ x ∧ x ≤ 1) :
    -1 ≤ l.sum / l.length ∧ l.sum / l.length ≤ 1 := by
  have hlen : 0 < (l.length : ℝ) := by
    have : 0 < l.length := List.length_pos.mpr hne
    exact_mod_cast this
  have hupper : l.sum ≤ (l.length : ℝ) := by
    clear hne hlen
    induction l with
    | nil => simp
    | cons x t ih =>
      have hx := (h x (List.mem_cons_self x t)).2
      have ht := ih fun y hy => h y (List.mem_cons_of_mem x hy)
      simp only [List.sum_cons, List.length_cons]
      push_cast
      linarith
  have hlower : -(l.length : ℝ) ≤ l.sum := by
    clear hne hlen hupper
    induction l with
    | nil => simp
    | cons x t ih =>
      have hx := (h x (List.mem_cons_self x t)).1
      have ht := ih fun y hy => h y (List.mem_cons_of_mem x hy)
      simp only [List.sum_cons, List.length_cons]
      push_cast
      linarith
  constructor
  · rw [le_div_iff hlen]
    linarith
  · rw [div_le_one hlen]
    exact hupper

/-- Counterexample for C5: for the one-dimensional vectors `(1)` and `(−1)`
the pairwise cosine similarity is −1, so `intra_similarity` returns −1,
outside the claimed interval [0, 1]. -/
theorem intra_similarity_range_counterexample :
    intra_similarity [(fun _ : Fin 1 => (1 : ℚ)), (fun _ => (-1 : ℚ))] = -1
    ∧ ¬ (0 ≤ intra_similarity [(fun _ : Fin 1 => (1 : ℚ)), (fun _ => (-1 : ℚ))]) := by
  have hcos : cosineSim (fun _ : Fin 1 => (1 : ℚ)) (fun _ => (-1 : ℚ)) = -1 := by
    rw [cosineSim]
    rw [if_neg]
    · simp [dotQ, normSq, Fin.sum_univ_one]
    · simp [normSq, Fin.sum_univ_one]
  have hval : intra_similarity [(fun _ : Fin 1 => (1 : ℚ)), (fun _ => (-1 : ℚ))] =
      cosineSim (fun _ : Fin 1 => (1 : ℚ)) (fun _ => (-1 : ℚ)) := by
    simp [intra_similarity, pairSims]
  rw [hval, hcos]
  norm_num

/-- C5 (amended).  `intra_similarity` always lies in [−1, 1] — not [0, 1]:
any single pairwise cosine similarity, hence their mean, can be negative.  It
is exactly 1.0 for a single vector, exactly 0.0 for zero vectors, and for two
or more vectors it is the mean of the strictly-upper-triangular pairwise
cosine similarities (of which there are n(n−1)/2). -/
theorem intra_similarity_bounds {d : ℕ} (embs : List (Vec d)) :
    (-1 ≤ intra_similarity embs ∧ intra_similarity embs ≤ 1)
    ∧ (embs.length = 1 → intra_similarity embs = 1)
    ∧ (embs = [] → intra_similarity embs = 0)
    ∧ (2 ≤ embs.length →
        intra_similarity embs = (pairSims embs).sum / (pairSims embs).length
        ∧ 2 * (pairSims embs).length = embs.length * (embs.length - 1)) := by
  refine ⟨?_, ?_, ?_, ?_⟩
  · unfold intra_similarity
    split_ifs with h1 h2 h3
    · norm_num
    · norm_num
    · norm_num
    · have hne := pairSims_ne_nil embs (by omega)
      exact list_mean_bounds _ hne (mem_pairSims_bounds embs)
  · intro h1
    unfold intra_similarity
    rw [if_pos (by omega), if_pos h1]
  · intro h1
    subst h1
    rfl
  · intro h2
    have hplen := pairSims_length embs
    have hne := pairSims_ne_nil embs h2
    have hpos : 0 < (pairSims embs).length := List.length_pos.mpr hne
    refine ⟨?_, hplen⟩
    unfold intra_similarity
    rw [if_neg (by omega), if_neg (by omega)]

/-- Witness for C5 at concrete inputs: a singleton list gives exactly 1 and
lies in the interval. -/
theorem intra_similarity_bounds_witness :
    -1 ≤ intra_similarity [(fun _ : Fin 1 => (1 : ℚ))]
    ∧ intra_similarity [(fun _ : Fin 1 => (1 : ℚ))] = 1 := by
  have h := intra_similarity_bounds [(fun _ : Fin 1 => (1 : ℚ))]
  exact ⟨h.1.1, h.2.1 rfl⟩

/- ## C3: assignment atomicity under collaborator failure -/

theorem assign_message_run_emb_fail {d : ℕ} (o : LabelOracles d) (q : QState d)
    (message : DiscordMessage) (batchOk : Bool) :
    assign_message_run o q message false batchOk = .error q := rfl

theorem assign_message_run_none {d : ℕ} (o : LabelOracles d) (q : QState d)
    (message : DiscordMessage) (batchOk : Bool)
    (hassign : assign_nearest (o.embOf message.content) q.clusters
      CLUSTER_ASSIGNMENT_THRESHOLD = none) :
    assign_message_run o q message true batchOk =
      .ok { q with unassigned_buffer := q.unassigned_buffer ++ [message.message_id] } := by
  unfold assign_message_run
  simp only [Bool.not_true, Bool.false_eq_true, if_false, hassign]

theorem assign_message_run_batch_fail {d : ℕ} (o : LabelOracles d) (q : QState d)
    (message : DiscordMessage) (idx : ℕ) (c : Cluster d)
    (hassign : assign_nearest (o.embOf message.content) q.clusters
      CLUSTER_ASSIGNMENT_THRESHOLD = some idx)
    (hget : q.clusters.get? idx = some c) :
    assign_message_run o q message true false =
      .error
        { q with
          clusters := q.clusters.set idx
            { c with message_ids := c.message_ids ++ [message.message_id] }
          discord_messages := q.discord_messages.map (fun m =>
            if m.message_id = message.message_id then
              { m with two_word_summary := some c.label }
            else m) } := by
  unfold assign_message_run
  simp only [Bool.not_true, Bool.false_eq_true, if_false, Bool.not_false, if_true, hassign, hget]

theorem assign_message_run_success {d : ℕ} (o : LabelOracles d) (q : QState d)
    (message : DiscordMessage) (idx : ℕ) (c : Cluster d)
    (hassign : assign_nearest (o.embOf message.content) q.clusters
      CLUSTER_ASSIGNMENT_THRESHOLD = some idx)
    (hget : q.clusters.get? idx = some c) :
    ∃ c2 : Cluster d,
      assign_message_run o q message true true =
        .ok
          { q with
            clusters := q.clusters.set idx c2
            discord_messages := q.discord_messages.map (fun m =>
              if m.message_id = message.message_id then
                { m with two_word_summary := some c.label }
              else m) } ∧
      c2.message_ids = c.message_ids ++ [message.message_id] := by
  unfold assign_message_run
  simp only [Bool.not_true, Bool.false_eq_true, if_false, hassign, hget, List.set_set]
  exact ⟨_, rfl, rfl⟩

/-- C3.  Atomicity of `assign_message` under embedding-provider failure, at a
concrete failing input.  (a) If the initial `get_embedding` call raises, the
state is exactly the prior state — this much the code guarantees.  (b) But if
the `get_embeddings_batch` call recomputing the matched cluster's centroid
raises, the message id has already been appended to the cluster's membership
(["m0"] became ["m0", "m1"]) while centroid and intra-similarity keep their
pre-call values — an observable partial mutation, contradicting the claim
that any embedding-provider failure during `assign_message` leaves the
cluster state exactly as before. -/
theorem assign_message_atomicity_bug :
    (assign_message_run (d := 1)
        ⟨fun _ => fun _ => (1 : ℚ), fun _ _ _ _ => "L", fun _ _ => false,
          fun ts => ts, fun _ => "cid"⟩
        ⟨[⟨"m0", "u0", "olivia", "budget", none, some "Budget"⟩,
          ⟨"m1", "u1", "sam", "budget now", none, none⟩],
         [⟨"c0", "Budget", fun _ => 1, ["m0"], false, 1, 0, 0⟩], [], ["Budget"]⟩
        ⟨"m1", "u1", "sam", "budget now", none, none⟩ false true
      = Except.error
        ⟨[⟨"m0", "u0", "olivia", "budget", none, some "Budget"⟩,
          ⟨"m1", "u1", "sam", "budget now", none, none⟩],
         [⟨"c0", "Budget", fun _ => 1, ["m0"], false, 1, 0, 0⟩], [], ["Budget"]⟩)
    ∧ (∃ q2 : QState 1,
        assign_message_run (d := 1)
          ⟨fun _ => fun _ => (1 : ℚ), fun _ _ _ _ => "L", fun _ _ => false,
            fun ts => ts, fun _ => "cid"⟩
          ⟨[⟨"m0", "u0", "olivia", "budget", none, some "Budget"⟩,
            ⟨"m1", "u1", "sam", "budget now", none, none⟩],
           [⟨"c0", "Budget", fun _ => 1, ["m0"], false, 1, 0, 0⟩], [], ["Budget"]⟩
          ⟨"m1", "u1", "sam", "budget now", none, none⟩ true false
        = Except.error q2
        ∧ q2.clusters.map (fun c => c.message_ids) = [["m0", "m1"]]
        ∧ q2.clusters.map (fun c => c.centroid) = [fun _ => (1 : ℚ)]
        ∧ q2.clusters.map (fun c => c.intra_sim) = [(1 : ℝ)]
        ∧ q2.unassigned_buffer = []) := by
  have hcos : cosineSim (fun _ : Fin 1 => (1 : ℚ)) (fun _ => (1 : ℚ)) = 1 := by
    simp [cosineSim, normSq, dotQ, Fin.sum_univ_one, Real.sqrt_one]
  have hassign : assign_nearest (d := 1) (fun _ => (1 : ℚ))
      [⟨"c0", "Budget", fun _ => 1, ["m0"], false, 1, 0, 0⟩]
      CLUSTER_ASSIGNMENT_THRESHOLD = some 0 := by
    unfold assign_nearest
    simp only [List.isEmpty_cons, Bool.false_eq_true, if_false, List.map_cons, List.map_nil]
    rw [hcos]
    rw [show argmaxIdx [(1 : ℝ)] = 0 from by simp [argmaxIdx]]
    rw [show ([(1 : ℝ)]).getD 0 0 = 1 from rfl]
    rw [if_pos (by norm_num [CLUSTER_ASSIGNMENT_THRESHOLD])]
  constructor
  · exact assign_message_run_emb_fail _ _ _ _
  · have hb := assign_message_run_batch_fail (d := 1)
      ⟨fun _ => fun _ => (1 : ℚ), fun _ _ _ _ => "L", fun _ _ => false,
        fun ts => ts, fun _ => "cid"⟩
      ⟨[⟨"m0", "u0", "olivia", "budget", none, some "Budget"⟩,
        ⟨"m1", "u1", "sam", "budget now", none, none⟩],
       [⟨"c0", "Budget", fun _ => 1, ["m0"], false, 1, 0, 0⟩], [], ["Budget"]⟩
      ⟨"m1", "u1", "sam", "budget now", none, none⟩ 0
      ⟨"c0", "Budget", fun _ => 1, ["m0"], false, 1, 0, 0⟩ hassign rfl
    exact ⟨_, hb, rfl, rfl, rfl, rfl⟩

/- ## C7 / C10 / C2: bootstrap structure -/

theorem mem_groupIdx (kml : List ℕ) (cid i : ℕ) :
    i ∈ groupIdx kml cid ↔ i < kml.length ∧ kml.getD i 0 = cid := by
  simp [groupIdx, List.mem_filter, List.mem_range]

theorem groupIdx_nodup (kml : List ℕ) (cid : ℕ) : (groupIdx kml cid).Nodup :=
  List.Nodup.filter _ (List.nodup_range _)

theorem filterMap_get_map_id (msgs : List DiscordMessage) (idxs : List ℕ)
    (hall : ∀ i ∈ idxs, i < msgs.length) :
    ((idxs.filterMap (fun i => msgs.get? i)).map (fun m => m.message_id)) =
      idxs.map (fun i => (msgs.getD i ⟨"", "", "", "", none, none⟩).message_id) := by
  induction idxs with
  | nil => rfl
  | cons i t ih =>
    have hi : i < msgs.length := hall i (List.mem_cons_self i t)
    have hget : msgs.get? i = some (msgs.getD i ⟨"", "", "", "", none, none⟩) := by
      rw [List.get?_eq_getElem?, List.getElem?_eq_getElem hi]
      congr 1
      rw [List.getD_eq_getElem?_getD, List.getElem?_eq_getElem hi]
      rfl
    simp only [List.filterMap_cons, hget, List.map_cons]
    exact congrArg _ (ih fun j hj => hall j (List.mem_cons_of_mem i hj))

theorem filterMap_get_ne_nil (msgs : List DiscordMessage) (idxs : List ℕ)
    (hall : ∀ i ∈ idxs, i < msgs.length) (hne : idxs ≠ []) :
    idxs.filterMap (fun i => msgs.get? i) ≠ [] := by
  rcases idxs with _ | ⟨i, t⟩
  · exact absurd rfl hne
  · have hi : i < msgs.length := hall i (List.mem_cons_self i t)
    have hget : msgs.get? i = some msgs[i] := by
      rw [List.get?_eq_getElem?, List.getElem?_eq_getElem hi]
    simp only [List.filterMap_cons, hget]
    simp

theorem buildClusters_cons {d : ℕ} (o : LabelOracles d) (prior : List (Cluster d))
    (msgs : List DiscordMessage) (kml : List ℕ) (cid : ℕ) (cs : List ℕ)
    (gen : List String) :
    buildClusters o prior msgs kml (cid :: cs) gen =
      if (groupIdx kml cid).isEmpty then buildClusters o prior msgs kml cs gen
      else
        let cmsgs := (groupIdx kml cid).filterMap (fun i => msgs.get? i)
        let cembs := cmsgs.map (fun m => o.embOf m.content)
        let best := bestOverlap (cmsgs.map (fun m => m.message_id)) prior
        let carried : Option String :=
          match best.2 with
          | some ex => if 1 / 2 < best.1 then some ex.label else none
          | none => none
        let label :=
          match carried with
          | some L => L
          | none =>
            dedupLabel o.gen o.tooSimilar
              (o.selectSeedTexts (cmsgs.map (fun m => m.content))) gen
        ({ cluster_id := o.freshId cid
           label := label
           centroid := centroid cembs
           message_ids := cmsgs.map (fun m => m.message_id)
           frozen := false
           intra_sim := intra_similarity cembs
           sentiment_avg := sentiment_metrics_avg cmsgs
           sentiment_std := sentiment_metrics_std cmsgs } : Cluster d) ::
          buildClusters o prior msgs kml cs (gen ++ [label]) := rfl

theorem buildClusters_ids {d : ℕ} (o : LabelOracles d) (prior : List (Cluster d))
    (msgs : List DiscordMessage) (kml : List ℕ) (cids : List ℕ) :
    ∀ gen : List String,
      (buildClusters o prior msgs kml cids gen).map (fun c => c.message_ids) =
        (cids.filter (fun cid => !(groupIdx kml cid).isEmpty)).map
          (fun cid => ((groupIdx kml cid).filterMap (fun i => msgs.get? i)).map
            (fun m => m.message_id)) := by
  induction cids with
  | nil => intro gen; rfl
  | cons cid cs ih =>
    intro gen
    rw [buildClusters_cons]
    by_cases he : (groupIdx kml cid).isEmpty
    · rw [if_pos he]
      rw [List.filter_cons, if_neg (by simp [he])]
      exact ih gen
    · rw [if_neg he]
      rw [List.filter_cons, if_pos (by simp [he])]
      simp only [List.map_cons]
      exact congrArg _ (ih _)

theorem flatMap_filter_nonempty {α : Type} (g : ℕ → List α) (cids : List ℕ) :
    (cids.filter (fun c => !(g c).isEmpty)).flatMap g = cids.flatMap g := by
  induction cids with
  | nil => rfl
  | cons c cs ih =>
    rw [List.filter_cons]
    by_cases he : (g c).isEmpty
    · have hnil : g c = [] := by
        rwa [List.isEmpty_iff] at he
      rw [if_neg (by simp [he]), List.flatMap_cons, hnil, ih]
      rfl
    · rw [if_pos (by simp [he]), List.flatMap_cons, List.flatMap_cons, ih]

theorem flatten_map_map {α β : Type} (f : α → β) (g : ℕ → List α) (l : List ℕ) :
    (l.map (fun a => (g a).map f)).flatten = (l.flatMap g).map f := by
  induction l with
  | nil => rfl
  | cons a t ih => simp [List.flatMap_cons, ih]

theorem buildClusters_ids_flatten {d : ℕ} (o : LabelOracles d) (prior : List (Cluster d))
    (msgs : List DiscordMessage) (kml : List ℕ) (cids : List ℕ) (gen : List String)
    (hk : kml.length ≤ msgs.length) :
    ((buildClusters o prior msgs kml cids gen).map (fun c => c.message_ids)).flatten =
      (cids.flatMap (fun cid => groupIdx kml cid)).map
        (fun i => (msgs.getD i ⟨"", "", "", "", none, none⟩).message_id) := by
  rw [buildClusters_ids]
  have hcongr : ∀ cid ∈ cids.filter (fun cid => !(groupIdx kml cid).isEmpty),
      ((groupIdx kml cid).filterMap (fun i => msgs.get? i)).map (fun m => m.message_id) =
        (groupIdx kml cid).map
          (fun i => (msgs.getD i ⟨"", "", "", "", none, none⟩).message_id) := by
    intro cid _
    apply filterMap_get_map_id
    intro i hi
    have := (mem_groupIdx kml cid i).mp hi
    omega
  rw [List.map_congr_left hcongr]
  rw [flatten_map_map]
  rw [flatMap_filter_nonempty]

theorem groups_flatMap_nodup (kml : List ℕ) (cids : List ℕ) (h : cids.Nodup) :
    (cids.flatMap (fun cid => groupIdx kml cid)).Nodup := by
  rw [List.nodup_flatMap]
  refine ⟨fun cid _ => groupIdx_nodup kml cid, ?_⟩
  refine List.Pairwise.imp ?_ h
  intro a b hab
  intro x hxa hxb
  have h1 := (mem_groupIdx kml a x).mp hxa
  have h2 := (mem_groupIdx kml b x).mp hxb
  exact hab (h1.2 ▸ h2.2.symm ▸ rfl)

theorem mem_groups_flatMap (kml : List ℕ) (cids : List ℕ) (x : ℕ) :
    x ∈ cids.flatMap (fun cid => groupIdx kml cid) ↔
      x < kml.length ∧ kml.getD x 0 ∈ cids := by
  rw [List.mem_flatMap]
  constructor
  · rintro ⟨cid, hcid, hx⟩
    have := (mem_groupIdx kml cid x).mp hx
    exact ⟨this.1, this.2 ▸ hcid⟩
  · rintro ⟨hx, hmem⟩
    exact ⟨kml.getD x 0, hmem, (mem_groupIdx kml _ x).mpr ⟨hx, rfl⟩⟩

theorem getD_eq_getElem {α : Type} (l : List α) (i : ℕ) (h : i < l.length) (dflt : α) :
    l.getD i dflt = l[i] := by
  rw [List.getD_eq_getElem?_getD, List.getElem?_eq_getElem h]
  rfl

theorem map_getD_id_nodup (msgs : List DiscordMessage) (idxs : List ℕ)
    (hn : idxs.Nodup) (hb : ∀ i ∈ idxs, i < msgs.length)
    (hids : (msgs.map (fun m => m.message_id)).Nodup) :
    (idxs.map (fun i => (msgs.getD i ⟨"", "", "", "", none, none⟩).message_id)).Nodup := by
  refine List.Nodup.map_on ?_ hn
  intro x hx y hy hf
  have hxl : x < msgs.length := hb x hx
  have hyl : y < msgs.length := hb y hy
  rw [getD_eq_getElem _ _ hxl, getD_eq_getElem _ _ hyl] at hf
  have hxm : x < (msgs.map (fun m => m.message_id)).length := by simpa using hxl
  have hym : y < (msgs.map (fun m => m.message_id)).length := by simpa using hyl
  have : (msgs.map (fun m => m.message_id))[x] = (msgs.map (fun m => m.message_id))[y] := by
    rw [List.getElem_map, List.getElem_map]
    exact hf
  exact (List.Nodup.getElem_inj_iff hids).mp this

theorem flatten_nodup_unique {α β : Type} (L : List α) (f : α → List β)
    (h : ((L.map f).flatten).Nodup) :
    ∀ c1 ∈ L, ∀ c2 ∈ L, ∀ x, x ∈ f c1 → x ∈ f c2 → c1 = c2 := by
  induction L with
  | nil => intro c1 hc1; cases hc1
  | cons c T ih =>
    simp only [List.map_cons, List.flatten_cons] at h
    obtain ⟨h1, h2, hdisj⟩ := List.nodup_append.mp h
    intro c1 hc1 c2 hc2 x hx1 hx2
    rcases List.mem_cons.mp hc1 with rfl | hc1'
    · rcases List.mem_cons.mp hc2 with rfl | hc2'
      · rfl
      · exact (hdisj hx1 (List.mem_flatten.mpr
          ⟨f c2, List.mem_map_of_mem f hc2', hx2⟩)).elim
    · rcases List.mem_cons.mp hc2 with rfl | hc2'
      · exact (hdisj hx2 (List.mem_flatten.mpr
          ⟨f c1, List.mem_map_of_mem f hc1', hx1⟩)).elim
      · exact ih h2 c1 hc1' c2 hc2' x hx1 hx2

theorem bootstrap_unfold {d : ℕ} (o : LabelOracles d) (k : ℕ) (kml : List ℕ)
    (q : QState d) (hne : q.discord_messages.isEmpty = false)
    (hlen : ¬ q.discord_messages.length < k) :
    bootstrap_fixed_kmeans o k kml q =
      { discord_messages := q.discord_messages.map (fun m =>
          match ((buildClusters o q.clusters q.discord_messages kml
              (List.range k) []).reverse).find?
              (fun c => c.message_ids.contains m.message_id) with
          | some c => { m with two_word_summary := some c.label }
          | none => m)
        clusters := buildClusters o q.clusters q.discord_messages kml (List.range k) []
        unassigned_buffer := []
        two_word_summaries := ((buildClusters o q.clusters q.discord_messages kml
          (List.range k) []).map (fun c => c.label)).dedup } := by
  unfold bootstrap_fixed_kmeans
  rw [hne]
  rw [if_neg (by simp)]
  rw [if_neg hlen]

theorem bootstrap_state_facts {d : ℕ} (o : LabelOracles d) (k : ℕ) (kml : List ℕ)
    (q : QState d) (hne : q.discord_messages ≠ []) (hk : k ≤ q.discord_messages.length)
    (hlen : kml.length = q.discord_messages.length) (hvals : ∀ v ∈ kml, v < k)
    (hids : (msgIds q).Nodup) :
    (bootstrap_fixed_kmeans o k kml q).unassigned_buffer = []
    ∧ msgIds (bootstrap_fixed_kmeans o k kml q) = msgIds q
    ∧ (((bootstrap_fixed_kmeans o k kml q).clusters.map
        (fun c => c.message_ids)).flatten).Nodup
    ∧ (∀ id, id ∈ ((bootstrap_fixed_kmeans o k kml q).clusters.map
        (fun c => c.message_ids)).flatten ↔ id ∈ msgIds q)
    ∧ (∀ m ∈ (bootstrap_fixed_kmeans o k kml q).discord_messages,
        ∀ c ∈ (bootstrap_fixed_kmeans o k kml q).clusters,
          m.message_id ∈ c.message_ids → m.two_word_summary = some c.label) := by
  have hne' : q.discord_messages.isEmpty = false := by
    rcases hql : q.discord_messages with _ | ⟨a, t⟩
    · exact absurd hql hne
    · rfl
  have hlt : ¬ q.discord_messages.length < k := by omega
  rw [bootstrap_unfold o k kml q hne' hlt]
  have hkl : kml.length ≤ q.discord_messages.length := le_of_eq hlen
  have hflat := buildClusters_ids_flatten o q.clusters q.discord_messages kml
    (List.range k) [] hkl
  have hbound : ∀ i ∈ (List.range k).flatMap (fun cid => groupIdx kml cid),
      i < q.discord_messages.length := by
    intro i hi
    have := (mem_groups_flatMap kml (List.range k) i).mp hi
    omega
  have hnodupflat : (((buildClusters o q.clusters q.discord_messages kml
      (List.range k) []).map (fun c => c.message_ids)).flatten).Nodup := by
    rw [hflat]
    exact map_getD_id_nodup _ _ (groups_flatMap_nodup kml _ (List.nodup_range k))
      hbound hids
  have hmemflat : ∀ id, id ∈ ((buildClusters o q.clusters q.discord_messages kml
      (List.range k) []).map (fun c => c.message_ids)).flatten ↔ id ∈ msgIds q := by
    intro id
    rw [hflat]
    constructor
    · intro hid
      rcases List.mem_map.mp hid with ⟨i, hi, rfl⟩
      have hil : i < q.discord_messages.length := hbound i hi
      rw [getD_eq_getElem _ _ hil]
      exact List.mem_map_of_mem _ (List.getElem_mem hil)
    · intro hid
      rcases List.mem_map.mp hid with ⟨m, hm, rfl⟩
      rcases List.mem_iff_getElem.mp hm with ⟨j, hj, rfl⟩
      refine List.mem_map.mpr ⟨j, ?_, ?_⟩
      · refine (mem_groups_flatMap kml (List.range k) j).mpr ⟨by omega, ?_⟩
        refine List.mem_range.mpr ?_
        refine hvals _ ?_
        have hjk : j < kml.length := by omega
        rw [getD_eq_getElem _ _ hjk]
        exact List.getElem_mem hjk
      · rw [getD_eq_getElem _ _ hj]
  refine ⟨rfl, ?_, hnodupflat, hmemflat, ?_⟩
  · simp only [msgIds]
    rw [List.map_map]
    refine List.map_congr_left ?_
    intro m _
    rcases hfind : ((buildClusters o q.clusters q.discord_messages kml
        (List.range k) []).reverse).find? (fun c => c.message_ids.contains m.message_id)
      with _ | c
    · simp only [Function.comp_apply, hfind]
    · simp only [Function.comp_apply, hfind]
  · intro m hm c hc hmemid
    rcases List.mem_map.mp hm with ⟨m0, hm0, rfl⟩
    have hidpres : ∀ mm : DiscordMessage,
        (match List.find? (fun cl : Cluster d => cl.message_ids.contains mm.message_id)
            ((buildClusters o q.clusters q.discord_messages kml
              (List.range k) []).reverse) with
          | some cl => { mm with two_word_summary := some cl.label }
          | none => mm).message_id = mm.message_id := by
      intro mm
      rcases hf : List.find? (fun cl : Cluster d => cl.message_ids.contains mm.message_id)
          ((buildClusters o q.clusters q.discord_messages kml
            (List.range k) []).reverse) with _ | c'
      · rfl
      · rfl
    have hfindsome : (((buildClusters o q.clusters q.discord_messages kml
        (List.range k) []).reverse).find?
        (fun c => c.message_ids.contains m0.message_id)).isSome := by
      rw [List.find?_isSome]
      refine ⟨c, List.mem_reverse.mpr hc, ?_⟩
      rw [hidpres m0] at hmemid
      simpa using hmemid
    rcases hf : ((buildClusters o q.clusters q.discord_messages kml
        (List.range k) []).reverse).find?
        (fun c => c.message_ids.contains m0.message_id) with _ | c'
    · rw [hf] at hfindsome
      cases hfindsome
    · have hc' : c' ∈ buildClusters o q.clusters q.discord_messages kml
          (List.range k) [] :=
        List.mem_reverse.mp (List.mem_of_find?_eq_some hf)
      have hpc' : m0.message_id ∈ c'.message_ids := by
        have hq := List.find?_some hf
        simpa using hq
      have hceq : c = c' := by
        refine flatten_nodup_unique _ _ hnodupflat c hc c' hc' m0.message_id ?_ hpc'
        rw [hidpres m0] at hmemid
        exact hmemid
      simp only [hf]
      rw [hceq]

/-- C7.  After a bootstrap pass that runs to completion (non-empty message
list with at least `k` messages, a k-means labelling of the right length
with group ids < `k`, unique stored message ids): the unassigned buffer is
empty, every Discussion message id occurs exactly once in the union of the
new clusters' memberships (no message unassigned, no duplicate assignment),
every membership id references a stored message, every message's stored
label equals its containing cluster's label, and the stored messages (by id)
are unchanged. -/
theorem bootstrap_partition_coverage {d : ℕ} (o : LabelOracles d) (k : ℕ)
    (kml : List ℕ) (q : QState d) (id : String)
    (hne : q.discord_messages ≠ []) (hk : k ≤ q.discord_messages.length)
    (hlen : kml.length = q.discord_messages.length) (hvals : ∀ v ∈ kml, v < k)
    (hids : (msgIds q).Nodup) :
    (bootstrap_fixed_kmeans o k kml q).unassigned_buffer = []
    ∧ (id ∈ msgIds q →
        (((bootstrap_fixed_kmeans o k kml q).clusters.map
          (fun c => c.message_ids)).flatten).count id = 1)
    ∧ (∀ id2 ∈ ((bootstrap_fixed_kmeans o k kml q).clusters.map
        (fun c => c.message_ids)).flatten, id2 ∈ msgIds q)
    ∧ (∀ m ∈ (bootstrap_fixed_kmeans o k kml q).discord_messages,
        ∀ c ∈ (bootstrap_fixed_kmeans o k kml q).clusters,
          m.message_id ∈ c.message_ids → m.two_word_summary = some c.label)
    ∧ msgIds (bootstrap_fixed_kmeans o k kml q) = msgIds q := by
  obtain ⟨h1, h2, h3, h4, h5⟩ := bootstrap_state_facts o k kml q hne hk hlen hvals hids
  refine ⟨h1, ?_, fun id2 h => (h4 id2).mp h, h5, h2⟩
  intro hidq
  have hmem : id ∈ ((bootstrap_fixed_kmeans o k kml q).clusters.map
      (fun c => c.message_ids)).flatten := (h4 id).mpr hidq
  have hle := List.nodup_iff_count_le_one.mp h3 id
  have hpos : 0 < (((bootstrap_fixed_kmeans o k kml q).clusters.map
      (fun c => c.message_ids)).flatten).count id := List.count_pos_iff.mpr hmem
  omega

/-- Witness for C7 at a concrete input: one message, k = 1, k-means labelling
[0]; its id lands in exactly one cluster and the buffer is cleared. -/
theorem bootstrap_partition_coverage_witness :
    (bootstrap_fixed_kmeans (d := 1)
        ⟨fun _ => fun _ => 0, fun _ _ _ _ => "L", fun _ _ => false,
          fun ts => ts, fun _ => "cid"⟩ 1 [0]
        ⟨[⟨"a", "u", "al", "hi", none, none⟩], [], [], []⟩).unassigned_buffer = []
    ∧ (((bootstrap_fixed_kmeans (d := 1)
        ⟨fun _ => fun _ => 0, fun _ _ _ _ => "L", fun _ _ => false,
          fun ts => ts, fun _ => "cid"⟩ 1 [0]
        ⟨[⟨"a", "u", "al", "hi", none, none⟩], [], [], []⟩).clusters.map
          (fun c => c.message_ids)).flatten).count "a" = 1 := by
  have h := bootstrap_partition_coverage (d := 1)
    ⟨fun _ => fun _ => 0, fun _ _ _ _ => "L", fun _ _ => false,
      fun ts => ts, fun _ => "cid"⟩ 1 [0]
    ⟨[⟨"a", "u", "al", "hi", none, none⟩], [], [], []⟩ "a"
    (by decide) (by decide) (by decide) (by decide) (by decide)
  exact ⟨h.1, h.2.1 (by decide)⟩

/- ## C10: cluster count bounds -/

theorem buildClusters_length_le {d : ℕ} (o : LabelOracles d) (prior : List (Cluster d))
    (msgs : List DiscordMessage) (kml : List ℕ) (cids : List ℕ) :
    ∀ gen, (buildClusters o prior msgs kml cids gen).length ≤ cids.length := by
  induction cids with
  | nil => intro gen; simp [buildClusters]
  | cons cid cs ih =>
    intro gen
    rw [buildClusters_cons]
    by_cases he : (groupIdx kml cid).isEmpty
    · rw [if_pos he]
      calc (buildClusters o prior msgs kml cs gen).length ≤ cs.length := ih gen
        _ ≤ (cid :: cs).length := by simp
    · rw [if_neg he]
      simpa using Nat.succ_le_succ (ih _)

theorem buildClusters_ne_nil {d : ℕ} (o : LabelOracles d) (prior : List (Cluster d))
    (msgs : List DiscordMessage) (kml : List ℕ) (cids : List ℕ) :
    ∀ gen, (∃ cid ∈ cids, ¬(groupIdx kml cid).isEmpty = true) →
      buildClusters o prior msgs kml cids gen ≠ [] := by
  induction cids with
  | nil =>
    rintro gen ⟨cid, hcid, -⟩
    cases hcid
  | cons cid cs ih =>
    rintro gen ⟨cid2, hcid2, hne2⟩
    rw [buildClusters_cons]
    by_cases he : (groupIdx kml cid).isEmpty
    · rw [if_pos he]
      refine ih gen ⟨cid2, ?_, hne2⟩
      rcases List.mem_cons.mp hcid2 with rfl | h
      · exact absurd he hne2
      · exact h
    · rw [if_neg he]
      simp

theorem buildClusters_members_ne_nil {d : ℕ} (o : LabelOracles d)
    (prior : List (Cluster d)) (msgs : List DiscordMessage) (kml : List ℕ)
    (cids : List ℕ) (hk : kml.length ≤ msgs.length) :
    ∀ gen, ∀ c ∈ buildClusters o prior msgs kml cids gen, c.message_ids ≠ [] := by
  induction cids with
  | nil =>
    intro gen c hc
    cases hc
  | cons cid cs ih =>
    intro gen c hc
    rw [buildClusters_cons] at hc
    by_cases he : (groupIdx kml cid).isEmpty
    · rw [if_pos he] at hc
      exact ih gen c hc
    · rw [if_neg he] at hc
      rcases List.mem_cons.mp hc with rfl | hc2
      · show ((groupIdx kml cid).filterMap (fun i => msgs.get? i)).map
            (fun m => m.message_id) ≠ []
        intro hmap
        have hfne := filterMap_get_ne_nil msgs (groupIdx kml cid)
          (fun i hi => by
            have := (mem_groupIdx kml cid i).mp hi
            omega)
          (fun hgnil => he (by rw [hgnil]; rfl))
        exact hfne (List.map_eq_nil_iff.mp hmap)
      · exact ih _ c hc2

/-- C10.  A completed bootstrap pass produces between 1 and
`CLUSTER_MAX_COUNT` clusters inclusive, each with at least one member
message: empty k-means groups are silently skipped, so the live cluster
count can be strictly less than the configured maximum (witnessed by a
labelling that puts all messages into group 0), and the cluster list never
contains an empty cluster. -/
theorem bootstrap_cluster_count_bounds {d : ℕ} (o : LabelOracles d) (kml : List ℕ)
    (q : QState d) (hne : q.discord_messages ≠ [])
    (hk : CLUSTER_MAX_COUNT ≤ q.discord_messages.length)
    (hlen : kml.length = q.discord_messages.length)
    (hvals : ∀ v ∈ kml, v < CLUSTER_MAX_COUNT) :
    1 ≤ (bootstrap_fixed_kmeans o CLUSTER_MAX_COUNT kml q).clusters.length
    ∧ (bootstrap_fixed_kmeans o CLUSTER_MAX_COUNT kml q).clusters.length ≤
        CLUSTER_MAX_COUNT
    ∧ (∀ c ∈ (bootstrap_fixed_kmeans o CLUSTER_MAX_COUNT kml q).clusters,
        c.message_ids ≠ [])
    ∧ (∃ (o2 : LabelOracles 1) (q2 : QState 1) (kml2 : List ℕ),
        q2.discord_messages ≠ [] ∧
        CLUSTER_MAX_COUNT ≤ q2.discord_messages.length ∧
        kml2.length = q2.discord_messages.length ∧
        (∀ v ∈ kml2, v < CLUSTER_MAX_COUNT) ∧
        (bootstrap_fixed_kmeans o2 CLUSTER_MAX_COUNT kml2 q2).clusters.length <
          CLUSTER_MAX_COUNT) := by
  have hne' : q.discord_messages.isEmpty = false := by
    rcases hql : q.discord_messages with _ | ⟨a, t⟩
    · exact absurd hql hne
    · rfl
  have hlt : ¬ q.discord_messages.length < CLUSTER_MAX_COUNT := by omega
  rw [bootstrap_unfold o CLUSTER_MAX_COUNT kml q hne' hlt]
  have hkl : kml.length ≤ q.discord_messages.length := le_of_eq hlen
  have hk1 : 0 < kml.length := by
    have : (1 : ℕ) ≤ 4 := by omega
    simp only [CLUSTER_MAX_COUNT] at hk
    omega
  refine ⟨?_, ?_, ?_, ?_⟩
  · refine List.length_pos.mpr ?_
    refine buildClusters_ne_nil o q.clusters q.discord_messages kml (List.range _) []
      ⟨kml.getD 0 0, ?_, ?_⟩
    · refine List.mem_range.mpr ?_
      refine hvals _ ?_
      rw [getD_eq_getElem _ _ hk1]
      exact List.getElem_mem hk1
    · intro hemp
      have h0 : (0 : ℕ) ∈ groupIdx kml (kml.getD 0 0) :=
        (mem_groupIdx kml _ 0).mpr ⟨hk1, rfl⟩
      rw [List.isEmpty_iff] at hemp
      rw [hemp] at h0
      cases h0
  · calc (buildClusters o q.clusters q.discord_messages kml
        (List.range CLUSTER_MAX_COUNT) []).length
        ≤ (List.range CLUSTER_MAX_COUNT).length := buildClusters_length_le _ _ _ _ _ _
      _ = CLUSTER_MAX_COUNT := List.length_range _
  · exact buildClusters_members_ne_nil o q.clusters q.discord_messages kml _ hkl []
  · refine ⟨⟨fun _ => fun _ => 0, fun _ _ _ _ => "L", fun _ _ => false,
      fun ts => ts, fun _ => "cid"⟩,
      ⟨[⟨"a", "u", "al", "one", none, none⟩, ⟨"b", "u", "al", "two", none, none⟩,
        ⟨"c", "u", "al", "three", none, none⟩, ⟨"e", "u", "al", "four", none, none⟩],
       [], [], []⟩, [0, 0, 0, 0], by decide, by decide, by decide, by decide, ?_⟩
    decide

/-- Witness for C10 at a concrete input: 4 messages, all assigned to k-means
group 0; between 1 and 4 clusters are produced. -/
theorem bootstrap_cluster_count_bounds_witness :
    1 ≤ (bootstrap_fixed_kmeans (d := 1)
        ⟨fun _ => fun _ => 0, fun _ _ _ _ => "L", fun _ _ => false,
          fun ts => ts, fun _ => "cid"⟩ CLUSTER_MAX_COUNT [0, 0, 0, 0]
        ⟨[⟨"a", "u", "al", "one", none, none⟩, ⟨"b", "u", "al", "two", none, none⟩,
          ⟨"c", "u", "al", "three", none, none⟩,
          ⟨"e", "u", "al", "four", none, none⟩], [], [], []⟩).clusters.length
    ∧ (bootstrap_fixed_kmeans (d := 1)
        ⟨fun _ => fun _ => 0, fun _ _ _ _ => "L", fun _ _ => false,
          fun ts => ts, fun _ => "cid"⟩ CLUSTER_MAX_COUNT [0, 0, 0, 0]
        ⟨[⟨"a", "u", "al", "one", none, none⟩, ⟨"b", "u", "al", "two", none, none⟩,
          ⟨"c", "u", "al", "three", none, none⟩,
          ⟨"e", "u", "al", "four", none, none⟩], [], [], []⟩).clusters.length ≤
        CLUSTER_MAX_COUNT := by
  have h := bootstrap_cluster_count_bounds (d := 1)
    ⟨fun _ => fun _ => 0, fun _ _ _ _ => "L", fun _ _ => false,
      fun ts => ts, fun _ => "cid"⟩ [0, 0, 0, 0]
    ⟨[⟨"a", "u", "al", "one", none, none⟩, ⟨"b", "u", "al", "two", none, none⟩,
      ⟨"c", "u", "al", "three", none, none⟩,
      ⟨"e", "u", "al", "four", none, none⟩], [], [], []⟩
    (by decide) (by decide) (by decide) (by decide)
  exact ⟨h.1, h.2.1⟩

/- ## C2: label uniqueness after bootstrap -/

/-- Counterexample for C2: with no prior clusters, three singleton k-means
groups and a label generator that always returns "X", the dedup procedure
accepts "X" for the first cluster and the final append-a-distinguishing-word
fallback produces "X Hello" for BOTH remaining clusters (their seed texts
share the first meaningful word "hello"), so the pass ends with two clusters
whose labels collide case-insensitively. -/
theorem bootstrap_label_uniqueness_counterexample :
    ((bootstrap_fixed_kmeans (d := 1)
        ⟨fun _ => fun _ => 0, fun _ _ _ _ => "X", fun _ _ => false,
          fun ts => ts, fun _ => "cid"⟩ 3 [0, 1, 2]
        ⟨[⟨"m1", "u", "al", "alpha topic", none, none⟩,
          ⟨"m2", "u", "al", "hello team", none, none⟩,
          ⟨"m3", "u", "al", "hello world", none, none⟩], [], [], []⟩).clusters.map
      (fun c => c.label)) = ["X", "X Hello", "X Hello"]
    ∧ ¬ ((((bootstrap_fixed_kmeans (d := 1)
        ⟨fun _ => fun _ => 0, fun _ _ _ _ => "X", fun _ _ => false,
          fun ts => ts, fun _ => "cid"⟩ 3 [0, 1, 2]
        ⟨[⟨"m1", "u", "al", "alpha topic", none, none⟩,
          ⟨"m2", "u", "al", "hello team", none, none⟩,
          ⟨"m3", "u", "al", "hello world", none, none⟩], [], [], []⟩).clusters.map
      (fun c => c.label)).map pyLower).Nodup) := by
  constructor
  · decide
  · decide

theorem bootstrap_early_empty {d : ℕ} (o : LabelOracles d) (k : ℕ) (kml : List ℕ)
    (q : QState d) (h : q.discord_messages.isEmpty = true) :
    bootstrap_fixed_kmeans o k kml q = q := by
  unfold bootstrap_fixed_kmeans
  simp only [h, if_true]

theorem bootstrap_early_short {d : ℕ} (o : LabelOracles d) (k : ℕ) (kml : List ℕ)
    (q : QState d) (h2 : q.discord_messages.length < k) :
    bootstrap_fixed_kmeans o k kml q = q := by
  unfold bootstrap_fixed_kmeans
  by_cases h : q.discord_messages.isEmpty
  · simp only [h, if_true]
  · simp only [eq_false_of_ne_true h, Bool.false_eq_true, if_false, if_pos h2]

theorem labelAttempt_succ (g : List String → List String → Bool → Bool → String)
    (ts : String → List String → Bool) (lt generated : List String)
    (remaining attempt : ℕ) :
    labelAttempt g ts lt generated (remaining + 1) attempt =
      (let cand := g lt generated (decide (0 < attempt)) (decide (2 ≤ attempt))
       if (generated.map pyLower).contains (pyLower cand) then
         if remaining = 0 then cand ++ " " ++ distinguisher lt
         else labelAttempt g ts lt generated remaining (attempt + 1)
       else if !generated.isEmpty && ts cand generated then
         if remaining = 0 then cand ++ " " ++ distinguisher lt
         else labelAttempt g ts lt generated remaining (attempt + 1)
       else cand) := rfl

theorem dedupLabel_wellBehaved (g : List String → List String → Bool → Bool → String)
    (ts : String → List String → Bool) (lt generated : List String)
    (hfresh : ((generated.map pyLower).contains (pyLower (g lt generated false false))) = false)
    (hne : g lt generated false false ≠ "")
    (hsim : ts (g lt generated false false) generated = false) :
    dedupLabel g ts lt generated = g lt generated false false := by
  have h1 : labelAttempt g ts lt generated 3 0 =
      (if (generated.map pyLower).contains (pyLower (g lt generated false false)) then
         if (2 : ℕ) = 0 then g lt generated false false ++ " " ++ distinguisher lt
         else labelAttempt g ts lt generated 2 1
       else if !generated.isEmpty && ts (g lt generated false false) generated then
         if (2 : ℕ) = 0 then g lt generated false false ++ " " ++ distinguisher lt
         else labelAttempt g ts lt generated 2 1
       else g lt generated false false) := labelAttempt_succ g ts lt generated 2 0
  rw [hfresh, hsim, Bool.and_false] at h1
  simp only [Bool.false_eq_true, if_false] at h1
  unfold dedupLabel
  rw [h1, if_neg hne]

theorem buildClusters_labels_nodup {d : ℕ} (o : LabelOracles d)
    (msgs : List DiscordMessage) (kml : List ℕ)
    (hgen : ∀ texts existing r h2,
      ((existing.map pyLower).contains (pyLower (o.gen texts existing r h2))) = false
        ∧ o.gen texts existing r h2 ≠ "")
    (hsim : ∀ c l, o.tooSimilar c l = false) :
    ∀ (cids : List ℕ) (gen : List String), ((gen.map pyLower)).Nodup →
      ((gen ++ (buildClusters o [] msgs kml cids gen).map
        (fun c => c.label)).map pyLower).Nodup := by
  intro cids
  induction cids with
  | nil =>
    intro gen hg
    simpa [buildClusters] using hg
  | cons cid cs ih =>
    intro gen hg
    rw [buildClusters_cons]
    by_cases he : (groupIdx kml cid).isEmpty
    · rw [if_pos he]
      exact ih gen hg
    · rw [if_neg he]
      have hcar : (match
          (match (bestOverlap (((groupIdx kml cid).filterMap
              (fun i => msgs.get? i)).map (fun m : DiscordMessage => m.message_id))
            ([] : List (Cluster d))).2 with
           | some ex => if 1 / 2 < (bestOverlap (((groupIdx kml cid).filterMap
              (fun i => msgs.get? i)).map (fun m : DiscordMessage => m.message_id))
              ([] : List (Cluster d))).1 then some ex.label else none
           | none => none) with
          | some L => L
          | none => dedupLabel o.gen o.tooSimilar
              (o.selectSeedTexts (((groupIdx kml cid).filterMap
                (fun i => msgs.get? i)).map (fun m : DiscordMessage => m.content))) gen) =
          dedupLabel o.gen o.tooSimilar
            (o.selectSeedTexts (((groupIdx kml cid).filterMap
              (fun i => msgs.get? i)).map (fun m : DiscordMessage => m.content))) gen := rfl
      have hL := dedupLabel_wellBehaved o.gen o.tooSimilar
        (o.selectSeedTexts (((groupIdx kml cid).filterMap
          (fun i => msgs.get? i)).map (fun m => m.content))) gen
        (hgen _ _ _ _).1 (hgen _ _ _ _).2 (hsim _ _)
      simp only [List.map_cons, hcar, hL]
      have hfresh := (hgen (o.selectSeedTexts (((groupIdx kml cid).filterMap
        (fun i => msgs.get? i)).map (fun m => m.content))) gen false false).1
      have hnotmem : pyLower (o.gen (o.selectSeedTexts (((groupIdx kml cid).filterMap
          (fun i => msgs.get? i)).map (fun m => m.content))) gen false false) ∉
          gen.map pyLower := by
        intro hmem
        rw [show ((gen.map pyLower).contains (pyLower (o.gen (o.selectSeedTexts
          (((groupIdx kml cid).filterMap (fun i => msgs.get? i)).map
            (fun m => m.content))) gen false false))) = true from by
          simpa using hmem] at hfresh
        cases hfresh
      have hg2 : (((gen ++ [o.gen (o.selectSeedTexts (((groupIdx kml cid).filterMap
          (fun i => msgs.get? i)).map (fun m => m.content))) gen false false]).map
            pyLower)).Nodup := by
        rw [List.map_append]
        rw [List.nodup_append]
        refine ⟨hg, List.nodup_singleton _, ?_⟩
        intro x hx hx2
        rw [List.map_singleton] at hx2
        rcases List.mem_singleton.mp hx2 with rfl
        exact hnotmem hx
      have := ih (gen ++ [o.gen (o.selectSeedTexts (((groupIdx kml cid).filterMap
        (fun i => msgs.get? i)).map (fun m => m.content))) gen false false]) hg2
      rw [List.append_assoc] at this
      simpa [hL] using this

/-- C2 (amended).  The dedup procedure alone does not guarantee pairwise
distinct labels (see the counterexample: a generator that always returns the
identical string forces the append-a-distinguishing-word fallback, which is
never re-checked and can collide; the carry-over path can likewise reuse one
prior cluster's label for two new groups).  Uniqueness does hold whenever the
pass starts with no prior clusters (no carry-over), every label-generator
call returns a non-empty candidate that is case-insensitively distinct from
the labels already assigned in this pass, and the embedding-similarity retry
never triggers: then all k cluster labels are pairwise distinct
case-insensitively. -/
theorem bootstrap_labels_distinct {d : ℕ} (o : LabelOracles d) (k : ℕ)
    (kml : List ℕ) (q : QState d) (hq : q.clusters = [])
    (hgen : ∀ texts existing r h2,
      ((existing.map pyLower).contains (pyLower (o.gen texts existing r h2))) = false
        ∧ o.gen texts existing r h2 ≠ "")
    (hsim : ∀ c l, o.tooSimilar c l = false) :
    (((bootstrap_fixed_kmeans o k kml q).clusters.map
      (fun c => c.label)).map pyLower).Nodup := by
  by_cases h1 : q.discord_messages.isEmpty
  · rw [bootstrap_early_empty o k kml q h1, hq]
    simp
  · by_cases h2 : q.discord_messages.length < k
    · rw [bootstrap_early_short o k kml q h2, hq]
      simp
    · rw [bootstrap_unfold o k kml q (eq_false_of_ne_true h1) h2]
      rw [hq]
      have := buildClusters_labels_nodup o q.discord_messages kml hgen hsim
        (List.range k) [] (by simp)
      simpa using this

/-- Witness for C2 (amended) at a concrete input: a generator that returns a
run of 'z' one character longer than the total length of the labels so far
(hence always fresh), two messages, two k-means groups. -/
theorem bootstrap_labels_distinct_witness :
    (((bootstrap_fixed_kmeans (d := 1)
        ⟨fun _ => fun _ => 0,
         fun _ existing _ _ =>
           String.mk (List.replicate ((existing.map String.length).sum + 1) 'z'),
         fun _ _ => false, fun ts => ts, fun _ => "cid"⟩ 2 [0, 1]
        ⟨[⟨"m1", "u", "al", "alpha", none, none⟩,
          ⟨"m2", "u", "al", "beta", none, none⟩], [], [], []⟩).clusters.map
      (fun c => c.label)).map pyLower).Nodup := by
  refine bootstrap_labels_distinct _ 2 [0, 1] _ rfl ?_ (fun _ _ => rfl)
  intro texts existing r h2
  have hlenpy : ∀ x : String, (pyLower x).length = x.length := by
    intro x
    show (String.mk (x.toList.map Char.toLower)).length = x.length
    rw [show (String.mk (x.toList.map Char.toLower)).length =
      (x.toList.map Char.toLower).length from rfl]
    rw [List.length_map]
    rfl
  have hcandlen : (String.mk (List.replicate ((existing.map String.length).sum + 1)
      'z')).length = (existing.map String.length).sum + 1 := by
    show (List.replicate ((existing.map String.length).sum + 1) 'z').length = _
    rw [List.length_replicate]
  constructor
  · rcases hcon : ((existing.map pyLower).contains (pyLower (String.mk
        (List.replicate ((existing.map String.length).sum + 1) 'z')))) with _ | _
    · rfl
    · exfalso
      have hmem : pyLower (String.mk (List.replicate
          ((existing.map String.length).sum + 1) 'z')) ∈ existing.map pyLower := by
        simpa using hcon
      rcases List.mem_map.mp hmem with ⟨e, he, heq⟩
      have hlen := congrArg String.length heq
      rw [hlenpy, hlenpy, hcandlen] at hlen
      have hle : e.length ≤ (existing.map String.length).sum := by
        refine List.single_le_sum (fun x _ => Nat.zero_le x) _ ?_
        exact List.mem_map_of_mem _ he
      omega
  · intro hempty
    have hlen := congrArg String.length hempty
    rw [hcandlen] at hlen
    cases hlen

/- ## C6: the at-most-once assignment invariant -/

theorem flatten_set_perm {α : Type} :
    ∀ (L : List (List α)) (idx : ℕ) (v w : List α), L.get? idx = some v →
      List.Perm (L.set idx (v ++ w)).flatten (L.flatten ++ w) := by
  intro L
  induction L with
  | nil =>
    intro idx v w h
    cases h
  | cons u T ih =>
    intro idx v w h
    rcases idx with _ | idx
    · obtain rfl : u = v := by
        have hh : some u = some v := h
        exact Option.some.inj hh
      simp only [List.set_cons_zero, List.flatten_cons, List.append_assoc]
      exact List.Perm.append_left _ List.perm_append_comm
    · have h' : T.get? idx = some v := h
      simp only [List.set_cons_succ, List.flatten_cons]
      have hstep : List.Perm (u ++ (T.set idx (v ++ w)).flatten)
          (u ++ (T.flatten ++ w)) :=
        List.Perm.append_left u (ih idx v w h')
      have heq : u ++ (T.flatten ++ w) = (u ++ T.flatten) ++ w := by
        rw [List.append_assoc]
      rw [heq] at hstep
      exact hstep

theorem msgIds_map_preserved {d : ℕ} (q : QState d)
    (f : DiscordMessage → DiscordMessage)
    (hf : ∀ m, (f m).message_id = m.message_id) :
    (q.discord_messages.map f).map (fun m => m.message_id) = msgIds q := by
  rw [List.map_map]
  refine List.map_congr_left ?_
  intro m _
  exact hf m

theorem assign_message_run_effect {d : ℕ} (o : LabelOracles d) (q : QState d)
    (message : DiscordMessage) (embOk batchOk : Bool) :
    ∃ q2 : QState d,
      (assign_message_run o q message embOk batchOk = .ok q2 ∨
        assign_message_run o q message embOk batchOk = .error q2)
      ∧ msgIds q2 = msgIds q
      ∧ (assignedIds q2 = assignedIds q ∨
          List.Perm (assignedIds q2) (assignedIds q ++ [message.message_id])) := by
  have hsummary : ∀ (label : String) (m : DiscordMessage),
      ((fun m => if m.message_id = message.message_id then
        { m with two_word_summary := some label } else m) m).message_id =
        m.message_id := by
    intro label m
    show (if m.message_id = message.message_id then
        { m with two_word_summary := some label } else m).message_id = m.message_id
    by_cases hm : m.message_id = message.message_id
    · rw [if_pos hm]
    · rw [if_neg hm]
  rcases embOk with _ | _
  · exact ⟨q, Or.inr (assign_message_run_emb_fail o q message batchOk), rfl, Or.inl rfl⟩
  · rcases hassign : assign_nearest (o.embOf message.content) q.clusters
        CLUSTER_ASSIGNMENT_THRESHOLD with _ | idx
    · refine ⟨_, Or.inl (assign_message_run_none o q message batchOk hassign), rfl, ?_⟩
      right
      have hb : assignedIds { q with unassigned_buffer :=
          q.unassigned_buffer ++ [message.message_id] } =
          assignedIds q ++ [message.message_id] := by
        simp [assignedIds, List.append_assoc]
      rw [hb]
    · rcases hget : q.clusters.get? idx with _ | c
      · refine ⟨q, Or.inl ?_, rfl, Or.inl rfl⟩
        unfold assign_message_run
        simp only [Bool.not_true, Bool.false_eq_true, if_false, hassign, hget]
      · have hperm : ∀ c2 : Cluster d,
            c2.message_ids = c.message_ids ++ [message.message_id] →
            List.Perm (assignedIds { q with
              clusters := q.clusters.set idx c2
              discord_messages := q.discord_messages.map (fun m =>
                if m.message_id = message.message_id then
                  { m with two_word_summary := some c.label }
                else m) }) (assignedIds q ++ [message.message_id]) := by
          intro c2 hc2
          show List.Perm
            (((q.clusters.set idx c2).map (fun cl => cl.message_ids)).flatten ++
              q.unassigned_buffer) _
          rw [List.map_set, hc2]
          have hget2 : (q.clusters.map (fun cl => cl.message_ids)).get? idx =
              some c.message_ids := by
            rw [List.get?_map, hget]
            rfl
          have h1 : List.Perm
              (((q.clusters.map (fun cl => cl.message_ids)).set idx
                (c.message_ids ++ [message.message_id])).flatten ++ q.unassigned_buffer)
              (((q.clusters.map (fun cl => cl.message_ids)).flatten ++
                  [message.message_id]) ++ q.unassigned_buffer) :=
            List.Perm.append_right _ (flatten_set_perm _ idx _ _ hget2)
          have h2eq : ((q.clusters.map (fun cl => cl.message_ids)).flatten ++
                [message.message_id]) ++ q.unassigned_buffer =
              (q.clusters.map (fun cl => cl.message_ids)).flatten ++
                ([message.message_id] ++ q.unassigned_buffer) := by
            rw [List.append_assoc]
          have h3 : List.Perm
              ((q.clusters.map (fun cl => cl.message_ids)).flatten ++
                ([message.message_id] ++ q.unassigned_buffer))
              ((q.clusters.map (fun cl => cl.message_ids)).flatten ++
                (q.unassigned_buffer ++ [message.message_id])) :=
            List.Perm.append_left _ List.perm_append_comm
          have h4eq : (q.clusters.map (fun cl => cl.message_ids)).flatten ++
              (q.unassigned_buffer ++ [message.message_id]) =
              assignedIds q ++ [message.message_id] := by
            simp [assignedIds, List.append_assoc]
          rw [h2eq] at h1
          have h5 := h1.trans h3
          rw [h4eq] at h5
          exact h5
        rcases batchOk with _ | _
        · refine ⟨_, Or.inr (assign_message_run_batch_fail o q message idx c hassign hget),
            ?_, ?_⟩
          · exact msgIds_map_preserved q _ (hsummary c.label)
          · right
            exact hperm _ rfl
        · obtain ⟨c2, hrun, hc2⟩ := assign_message_run_success o q message idx c hassign hget
          refine ⟨_, Or.inl hrun, ?_, ?_⟩
          · exact msgIds_map_preserved q _ (hsummary c.label)
          · right
            exact hperm c2 hc2

theorem add_message_fresh {d : ℕ} (q : QState d) (m : DiscordMessage)
    (h : m.message_id ∉ msgIds q) :
    add_message q m = { q with discord_messages := q.discord_messages ++ [m] } := by
  unfold add_message
  rw [if_neg ?hc]
  case hc =>
    intro hc
    refine h ?_
    have hm : m.message_id ∈ q.discord_messages.map (fun mm => mm.message_id) := by
      simpa [List.contains, List.elem_iff] using hc
    exact hm

theorem step_preserves_inv {d : ℕ} (o : LabelOracles d) (q : QState d) (op : Op d)
    (hinv : StateInv q) (hfresh : ∀ id ∈ ingestedIds [op], id ∉ msgIds q) :
    StateInv (step o q op) ∧ msgIds (step o q op) = msgIds q ++ ingestedIds [op] := by
  obtain ⟨hnd, hsub, hmsg⟩ := hinv
  rcases op with ⟨m, embOk, batchOk⟩ | kml
  · have hnotmem : m.message_id ∉ msgIds q := by
      refine hfresh m.message_id ?_
      simp [ingestedIds]
    have hadd := add_message_fresh q m hnotmem
    have hids1 : msgIds (add_message q m) = msgIds q ++ [m.message_id] := by
      rw [hadd]
      simp [msgIds]
    have hass1 : assignedIds (add_message q m) = assignedIds q := by
      rw [hadd]
      rfl
    obtain ⟨q2, hrun, hidkeep, heff⟩ :=
      assign_message_run_effect o (add_message q m) m embOk batchOk
    have hstep : step o q (.ingest m embOk batchOk) = q2 := by
      show (match assign_message_run o (add_message q m) m embOk batchOk with
        | .ok q2 => q2 | .error q2 => q2) = q2
      rcases hrun with hrun | hrun
      · rw [hrun]
      · rw [hrun]
    have hing : ingestedIds ([Op.ingest m embOk batchOk] : List (Op d)) =
        [m.message_id] := by
      simp [ingestedIds]
    rw [hstep, hing]
    have hids2 : msgIds q2 = msgIds q ++ [m.message_id] := by
      rw [hidkeep, hids1]
    have hnodup2 : (msgIds q ++ [m.message_id]).Nodup := by
      rw [List.nodup_append]
      refine ⟨hmsg, List.nodup_singleton _, ?_⟩
      intro x hx hx1
      rw [List.mem_singleton] at hx1
      subst hx1
      exact hnotmem hx
    refine ⟨⟨?_, ?_, ?_⟩, hids2⟩
    · rcases heff with heq | hperm
      · rw [heq, hass1]
        exact hnd
      · rw [hass1] at hperm
        refine hperm.nodup_iff.mpr ?_
        rw [List.nodup_append]
        refine ⟨hnd, List.nodup_singleton _, ?_⟩
        intro x hx hx1
        rw [List.mem_singleton] at hx1
        subst hx1
        exact hnotmem (hsub _ hx)
    · intro id hid
      rw [hids2]
      rcases heff with heq | hperm
      · rw [heq, hass1] at hid
        exact List.mem_append_left _ (hsub _ hid)
      · rw [hass1] at hperm
        rcases List.mem_append.mp (hperm.mem_iff.mp hid) with hida | hidb
        · exact List.mem_append_left _ (hsub _ hida)
        · exact List.mem_append_right _ hidb
    · rw [hids2]
      exact hnodup2
  · have hing : ingestedIds ([Op.runBootstrap kml] : List (Op d)) = [] := by
      simp [ingestedIds]
    rw [hing, List.append_nil]
    have hstep : step o q (.runBootstrap kml) =
        if kml.length = q.discord_messages.length ∧ ∀ v ∈ kml, v < CLUSTER_MAX_COUNT then
          bootstrap_fixed_kmeans o CLUSTER_MAX_COUNT kml q
        else q := rfl
    rw [hstep]
    by_cases hcond : kml.length = q.discord_messages.length ∧
        ∀ v ∈ kml, v < CLUSTER_MAX_COUNT
    · rw [if_pos hcond]
      by_cases hemp : q.discord_messages.isEmpty
      · rw [bootstrap_early_empty o _ kml q hemp]
        exact ⟨⟨hnd, hsub, hmsg⟩, rfl⟩
      · by_cases hshort : q.discord_messages.length < CLUSTER_MAX_COUNT
        · rw [bootstrap_early_short o _ kml q hshort]
          exact ⟨⟨hnd, hsub, hmsg⟩, rfl⟩
        · have hne : q.discord_messages ≠ [] := by
            intro hql
            rw [hql] at hemp
            exact hemp rfl
          obtain ⟨hbuf, hmid, hndflat, hmemflat, _⟩ :=
            bootstrap_state_facts o CLUSTER_MAX_COUNT kml q hne (by omega)
              hcond.1 hcond.2 hmsg
          refine ⟨⟨?_, ?_, ?_⟩, hmid⟩
          · show (_ ++ (bootstrap_fixed_kmeans o CLUSTER_MAX_COUNT kml q).unassigned_buffer).Nodup
            rw [hbuf, List.append_nil]
            exact hndflat
          · intro id hid
            rw [hmid]
            have hid' : id ∈ ((bootstrap_fixed_kmeans o CLUSTER_MAX_COUNT kml
                q).clusters.map (fun c => c.message_ids)).flatten := by
              have hb : assignedIds (bootstrap_fixed_kmeans o CLUSTER_MAX_COUNT kml q) =
                  ((bootstrap_fixed_kmeans o CLUSTER_MAX_COUNT kml q).clusters.map
                    (fun c => c.message_ids)).flatten := by
                show _ ++ _ = _
                rw [hbuf, List.append_nil]
              rw [hb] at hid
              exact hid
            exact (hmemflat id).mp hid'
          · rw [hmid]
            exact hmsg
    · rw [if_neg hcond]
      exact ⟨⟨hnd, hsub, hmsg⟩, rfl⟩

theorem ingestedIds_cons {d : ℕ} (op : Op d) (rest : List (Op d)) :
    ingestedIds (op :: rest) = ingestedIds [op] ++ ingestedIds rest := by
  rcases op with ⟨m, embOk, batchOk⟩ | kml
  · simp [ingestedIds]
  · simp [ingestedIds]

/-- Counterexample for C6: the duplicate guard of
`add_message_to_active_question` only stops the message store from growing;
`on_message` still calls `process_one` → `assign_message` unconditionally, so
ingesting the same Discord message twice appends its id to the unassigned
buffer twice, breaking the at-most-once invariant. -/
theorem state_invariant_counterexample :
    (runOps (d := 1)
        ⟨fun _ => fun _ => 0, fun _ _ _ _ => "L", fun _ _ => false,
          fun ts => ts, fun _ => "cid"⟩ ⟨[], [], [], []⟩
        [Op.ingest ⟨"m1", "u", "al", "hello", none, none⟩ true true,
         Op.ingest ⟨"m1", "u", "al", "hello", none, none⟩ true true]).unassigned_buffer
      = ["m1", "m1"]
    ∧ ¬ StateInv (runOps (d := 1)
        ⟨fun _ => fun _ => 0, fun _ _ _ _ => "L", fun _ _ => false,
          fun ts => ts, fun _ => "cid"⟩ ⟨[], [], [], []⟩
        [Op.ingest ⟨"m1", "u", "al", "hello", none, none⟩ true true,
         Op.ingest ⟨"m1", "u", "al", "hello", none, none⟩ true true]) := by
  constructor
  · decide
  · intro h
    exact absurd h.1 (by decide)

/-- C6 (amended): over every trace of ingest and bootstrap operations in
which no message id is ingested twice, every reachable Discussion state
satisfies the invariant — each message id appears in at most one cluster's
membership and at most once in the unassigned buffer, never both, assigned
ids reference stored messages, and stored ids are unique.  (The unamended
claim is refuted by `state_invariant_counterexample`: the caller-level
re-ingestion guard does not prevent double assignment.) -/
theorem state_invariant_no_duplicates {d : ℕ} (o : LabelOracles d) (q0 : QState d)
    (ops : List (Op d)) (hinv : StateInv q0)
    (hnodup : (msgIds q0 ++ ingestedIds ops).Nodup) :
    StateInv (runOps o q0 ops) := by
  induction ops generalizing q0 with
  | nil => exact hinv
  | cons op rest ih =>
    have hruns : runOps o q0 (op :: rest) = runOps o (step o q0 op) rest := rfl
    rw [hruns]
    rw [ingestedIds_cons op rest] at hnodup
    have hnodup' : ((msgIds q0 ++ ingestedIds [op]) ++ ingestedIds rest).Nodup := by
      rw [List.append_assoc]
      exact hnodup
    have hfresh : ∀ id ∈ ingestedIds ([op] : List (Op d)), id ∉ msgIds q0 := by
      intro id hid hmem
      rw [List.nodup_append] at hnodup'
      have hnd1 := hnodup'.1
      rw [List.nodup_append] at hnd1
      exact hnd1.2.2 hmem hid
    obtain ⟨hinv1, hids1⟩ := step_preserves_inv o q0 op hinv hfresh
    refine ih (step o q0 op) hinv1 ?_
    rw [hids1]
    exact hnodup'

theorem state_invariant_no_duplicates_witness :
    StateInv (runOps (d := 1)
        ⟨fun _ => fun _ => 0, fun _ _ _ _ => "L", fun _ _ => false,
          fun ts => ts, fun _ => "cid"⟩ ⟨[], [], [], []⟩
        [Op.ingest ⟨"a1", "u", "al", "hi", none, none⟩ true true,
         Op.ingest ⟨"a2", "u", "al", "yo", none, none⟩ true true]) :=
  state_invariant_no_duplicates
    ⟨fun _ => fun _ => 0, fun _ _ _ _ => "L", fun _ _ => false,
      fun ts => ts, fun _ => "cid"⟩ ⟨[], [], [], []⟩
    [Op.ingest ⟨"a1", "u", "al", "hi", none, none⟩ true true,
     Op.ingest ⟨"a2", "u", "al", "yo", none, none⟩ true true]
    ⟨by decide, by decide, by decide⟩ (by decide)
